import Mathlib

/-! Sudoku engine (`src/src/sudoku.js`).

A shallow embedding of the `Sudoku` class: the board is the JavaScript array of
arrays, read with `board[r][c]` and written with `board[r][c] = v`.  Mutation of
the board is made explicit by passing the board through every call; the random
source `Math.random` is an explicit sequence of draws; recursion and the
resampling loop carry a fuel argument, and `none` means the fuel ran out.
-/

namespace Sudoku

/-! ## Data model -/

/-- The board: a list of rows, each a list of cells, `0` meaning empty. -/
abbrev Grid := List (List Nat)

/-- The read `board[r][c]`. -/
def Grid.get (board : Grid) (r c : Nat) : Nat := (board.getD r []).getD c 0

/-- The write `board[r][c] = v`. -/
def Grid.set (board : Grid) (r c v : Nat) : Grid :=
  List.set board r (List.set (board.getD r []) c v)

/-- The shape every board of the program has: nine rows of nine cells. -/
def is9x9 (board : Grid) : Bool :=
  board.length == 9 && board.all (fun row => row.length == 9)

/-- The instance state of the class: `this.board` and `this.solution`. -/
structure State where
  board : Grid
  solution : Option Grid

/-- The constructor: an all-zero board and `solution = null`. -/
def State.fresh : State :=
  { board := List.replicate 9 (List.replicate 9 0), solution := none }

/-- The random source: `Math.random` read as an unbounded sequence of draws,
`pos` being the number of draws already consumed. -/
structure Rng where
  draws : Nat → Nat
  pos : Nat

/-- The expression `Math.floor(Math.random() * n)`: an integer in `[0, n)`. -/
def Rng.randomInt (g : Rng) (n : Nat) : Nat × Rng :=
  (g.draws g.pos % n, { draws := g.draws, pos := g.pos + 1 })

/-! ## The methods of the class -/

/-- Method `isValid`: the row loop, the column loop and the box loops, each
returning `false` at the first other cell that holds `num`. -/
def isValid (board : Grid) (row col num : Nat) : Bool :=
  (List.range 9).all (fun x => !(board.get row x == num && x != col)) &&
  ((List.range 9).all (fun x => !(board.get x col == num && x != row)) &&
  (List.range 3).all (fun i => (List.range 3).all (fun j =>
    !(board.get (i + row / 3 * 3) (j + col / 3 * 3) == num &&
      (i + row / 3 * 3 != row || j + col / 3 * 3 != col)))))

/-- Method `findEmpty`: the first `[r, c]` in row-major order with
`board[r][c] === 0`, or `null`. -/
def findEmpty (board : Grid) : Option (Nat × Nat) :=
  (List.range 9).findSome? (fun r =>
    (List.range 9).findSome? (fun c => if board.get r c == 0 then some (r, c) else none))

/-- Method `checkWin`. -/
def checkWin (currentBoard : Grid) : Bool :=
  (List.range 9).all (fun r => (List.range 9).all (fun c =>
    !(currentBoard.get r c == 0) &&
      isValid currentBoard r c (currentBoard.get r c)))

/-- The destructuring swap `[array[i], array[j]] = [array[j], array[i]]`. -/
def swap (array : List Nat) (i j : Nat) : List Nat :=
  List.set (List.set array i (array.getD j 0)) j (array.getD i 0)

/-- The loop of `shuffle`; the first argument is the loop variable `i`, which
runs down to 1. -/
def shuffleLoop : Nat → List Nat → Rng → List Nat × Rng
  | 0, array, g => (array, g)
  | i + 1, array, g =>
    shuffleLoop i (swap array (i + 1) (g.randomInt (i + 2)).1) (g.randomInt (i + 2)).2

/-- Method `shuffle`. -/
def shuffle (array : List Nat) (g : Rng) : List Nat × Rng :=
  shuffleLoop (array.length - 1) array g

/-- The `for (let num of nums)` loop of `fillBoard`; `recur` is the recursive
call `this.fillBoard(board)`. -/
def fillLoop (recur : Grid → Rng → Option (Bool × Grid × Rng)) (row col : Nat) :
    List Nat → Grid → Rng → Option (Bool × Grid × Rng)
  | [], board, g => some (false, board, g)
  | num :: nums, board, g =>
    if isValid board row col num then
      match recur (board.set row col num) g with
      | none => none
      | some (true, board1, g1) => some (true, board1, g1)
      | some (false, board1, g1) => fillLoop recur row col nums (board1.set row col 0) g1
    else fillLoop recur row col nums board g

/-- Method `fillBoard`: the returned boolean, the board as the call leaves it,
and the random source after the call. -/
def fillBoard : Nat → Grid → Rng → Option (Bool × Grid × Rng)
  | 0, _, _ => none
  | fuel + 1, board, g =>
    match findEmpty board with
    | none => some (true, board, g)
    | some (row, col) =>
      fillLoop (fillBoard fuel) row col (shuffle [1, 2, 3, 4, 5, 6, 7, 8, 9] g).1 board
        (shuffle [1, 2, 3, 4, 5, 6, 7, 8, 9] g).2

/-- The `for (let num = 1; num <= 9; num++)` loop of `solve`; `recur` is the
recursive call `this.solve(board, callback)`. -/
def solveLoop {σ : Type} (recur : Grid → σ → Option (Bool × Grid × σ)) (hasCallback : Bool)
    (row col : Nat) : List Nat → Grid → σ → Option (Bool × Grid × σ)
  | [], board, s => some (false, board, s)
  | num :: nums, board, s =>
    if isValid board row col num then
      match recur (board.set row col num) s with
      | none => none
      | some (r, board1, s1) =>
        if r && !hasCallback then some (true, board1, s1)
        else solveLoop recur hasCallback row col nums (board1.set row col 0) s1
    else solveLoop recur hasCallback row col nums board s

/-- Method `solve`.  The callback is a closure called without arguments: it is
modelled as a function of the state `σ` it has captured, and of the board as it
stands when the call is made, which a closure can read.  `none` as callback is
the call `solve(board)`. -/
def solve {σ : Type} (callback : Option (Grid → σ → σ)) :
    Nat → Grid → σ → Option (Bool × Grid × σ)
  | 0, _, _ => none
  | fuel + 1, board, s =>
    match findEmpty board with
    | none =>
      match callback with
      | some f => some (true, board, f board s)
      | none => some (true, board, s)
    | some (row, col) =>
      solveLoop (solve callback fuel) callback.isSome row col
        [1, 2, 3, 4, 5, 6, 7, 8, 9] board s

/-- The `switch (difficulty)` of `generateBoard`; `none` is the omitted
argument, which the default parameter reads as the string easy. -/
def holesFor (difficulty : Option String) : Nat :=
  if difficulty.getD "easy" = "medium" then 40
  else if difficulty.getD "easy" = "hard" then 50
  else 30

/-- The inner loop `while (this.board[row][col] === 0)` of `generateBoard`,
which draws a new cell until a filled one comes up. -/
def pickFilled : Nat → Grid → Nat → Nat → Rng → Option (Nat × Nat × Rng)
  | 0, _, _, _, _ => none
  | fuel + 1, board, row, col, g =>
    if board.get row col == 0 then
      pickFilled fuel board ((g.randomInt 9).1) (((g.randomInt 9).2.randomInt 9).1)
        (((g.randomInt 9).2.randomInt 9).2)
    else some (row, col, g)

/-- The callback `() => solutions++` of `generateBoard`. -/
def countCallback : Grid → Nat → Nat := fun _ solutions => solutions + 1

/-- The loop `while (holes > 0 && attempts > 0)` of `generateBoard`.  The first
argument is the fuel handed to `solve` and to the inner loop, the second bounds
the iterations of this loop. -/
def carveLoop (fuel : Nat) : Nat → Grid → Nat → Nat → Rng → Option (Grid × Rng)
  | 0, _, _, _, _ => none
  | k + 1, board, holes, attempts, g =>
    if decide (holes > 0) && decide (attempts > 0) then
      match pickFilled fuel board ((g.randomInt 9).1) (((g.randomInt 9).2.randomInt 9).1)
          (((g.randomInt 9).2.randomInt 9).2) with
      | none => none
      | some (row, col, g1) =>
        match solve (some countCallback) fuel (board.set row col 0) 0 with
        | none => none
        | some (_, _, solutions) =>
          if solutions != 1 then
            carveLoop fuel k ((board.set row col 0).set row col (board.get row col))
              holes (attempts - 1) g1
          else carveLoop fuel k (board.set row col 0) (holes - 1) attempts g1
    else some (board, g)

/-- Method `generateBoard`: the returned board, the instance state left behind
and the random source after the call.  The result of `fillBoard` is ignored, as
in the source. -/
def generateBoard (fuel : Nat) (self : State) (difficulty : Option String) (g : Rng) :
    Option (Grid × State × Rng) :=
  match fillBoard fuel self.board g with
  | none => none
  | some (_, board, g1) =>
    match carveLoop fuel fuel board (holesFor difficulty) 5 g1 with
    | none => none
    | some (board1, g2) => some (board1, { board := board1, solution := some board }, g2)

/-! ## Notions used to state the properties -/

/-- The cells of row `r`, left to right. -/
def rowCells (board : Grid) (r : Nat) : List Nat :=
  (List.range 9).map (fun c => board.get r c)

/-- The cells of column `c`, top to bottom. -/
def colCells (board : Grid) (c : Nat) : List Nat :=
  (List.range 9).map (fun r => board.get r c)

/-- The cells of box `k`, the boxes being numbered row-major from 0 to 8. -/
def boxCells (board : Grid) (k : Nat) : List Nat :=
  (List.range 9).map (fun i => board.get (k / 3 * 3 + i / 3) (k % 3 * 3 + i % 3))

/-- The number of empty cells of the board. -/
def zeroCount (board : Grid) : Nat :=
  (List.range 81).countP (fun k => board.get (k / 9) (k % 9) == 0)

/-- The filled cells are mutually conflict-free: `isValid` accepts the value of
every filled cell at its own place. -/
def conflictFree (board : Grid) : Bool :=
  (List.range 9).all (fun r => (List.range 9).all (fun c =>
    board.get r c == 0 || isValid board r c (board.get r c)))

/-- The grid `g` is a completion of `board`: a 9x9 grid that agrees with `board`
on its filled cells, holds a digit 1..9 in each cell `board` leaves empty, and
passes `checkWin`. -/
def completes (board g : Grid) : Bool :=
  is9x9 g &&
  ((List.range 9).all (fun r => (List.range 9).all (fun c =>
    if board.get r c == 0 then decide (1 ≤ g.get r c) && decide (g.get r c ≤ 9)
    else g.get r c == board.get r c)) &&
  checkWin g)

/-- What a counting run of `solve` does on a board: it returns whether the
board was full, leaves the board as it was, and has called the callback once at
each grid of `grids`, in order. -/
def CountsAs (fuel : Nat) (b : Grid) (grids : List Grid) : Prop :=
  ∀ (σ : Type) (f : Grid → σ → σ) (s : σ),
    solve (some f) fuel b s
      = some ((findEmpty b).isNone, b, grids.foldl (fun s1 g => f g s1) s)

/-- The state a callback leaves after being called once at each grid of a
list, in order. -/
def callbackOn {σ : Type} (f : Grid → σ → σ) (grids : List Grid) (s : σ) : σ :=
  grids.foldl (fun s1 g => f g s1) s

/-- The invariant of the carve-out loop for a stored solution `sol`: the board
is 9x9, each of its filled cells holds the value `sol` has there, and `sol` is
its one and only completion. -/
def Carved (sol board : Grid) : Prop :=
  is9x9 board = true ∧
  (∀ r c, r < 9 → c < 9 → board.get r c ≠ 0 → board.get r c = sol.get r c) ∧
  (∀ g, completes board g = true ↔ g = sol)

/-- A solved grid, the first one in lexicographic order. -/
def lexFirst : Grid :=
  [[1, 2, 3, 4, 5, 6, 7, 8, 9], [4, 5, 6, 7, 8, 9, 1, 2, 3], [7, 8, 9, 1, 2, 3, 4, 5, 6],
   [2, 1, 4, 3, 6, 5, 8, 9, 7], [3, 6, 5, 8, 9, 7, 2, 1, 4], [8, 9, 7, 2, 1, 4, 3, 6, 5],
   [5, 3, 1, 6, 4, 2, 9, 7, 8], [6, 4, 2, 9, 7, 8, 5, 3, 1], [9, 7, 8, 5, 3, 1, 6, 4, 2]]

/-- The board `lexFirst` with the cells (0,0), (0,1), (3,0) emptied. -/
def exampleBoard : Grid :=
  [[0, 0, 3, 4, 5, 6, 7, 8, 9], [4, 5, 6, 7, 8, 9, 1, 2, 3], [7, 8, 9, 1, 2, 3, 4, 5, 6],
   [0, 1, 4, 3, 6, 5, 8, 9, 7], [3, 6, 5, 8, 9, 7, 2, 1, 4], [8, 9, 7, 2, 1, 4, 3, 6, 5],
   [5, 3, 1, 6, 4, 2, 9, 7, 8], [6, 4, 2, 9, 7, 8, 5, 3, 1], [9, 7, 8, 5, 3, 1, 6, 4, 2]]

/-- The board `lexFirst` with the cells (0,0), (0,1), (3,0), (3,1) emptied; the
digits 1 and 2 fit these four cells in two ways. -/
def twoWayBoard : Grid :=
  [[0, 0, 3, 4, 5, 6, 7, 8, 9], [4, 5, 6, 7, 8, 9, 1, 2, 3], [7, 8, 9, 1, 2, 3, 4, 5, 6],
   [0, 0, 4, 3, 6, 5, 8, 9, 7], [3, 6, 5, 8, 9, 7, 2, 1, 4], [8, 9, 7, 2, 1, 4, 3, 6, 5],
   [5, 3, 1, 6, 4, 2, 9, 7, 8], [6, 4, 2, 9, 7, 8, 5, 3, 1], [9, 7, 8, 5, 3, 1, 6, 4, 2]]

/-- A run of random draws: eight draws for each of the 81 shuffles, which bring
the digit of `lexFirst` to the front in each cell, then the cells drawn by the
carve-out loop: (0,0), (0,1), (3,0), and five times (3,1). -/
def exampleDraws : List Nat :=
  [8, 7, 6, 5, 4, 3, 2, 1, 8, 7, 6, 5, 4, 3, 2, 0, 8, 7, 6, 5, 4, 3, 0, 1,
   8, 7, 6, 5, 4, 0, 2, 1, 8, 7, 6, 5, 0, 3, 2, 1, 8, 7, 6, 0, 4, 3, 2, 1,
   8, 7, 0, 5, 4, 3, 2, 1, 8, 0, 6, 5, 4, 3, 2, 1, 0, 7, 6, 5, 4, 3, 2, 1,
   8, 7, 6, 5, 4, 0, 2, 1, 8, 7, 6, 5, 0, 3, 2, 1, 8, 7, 6, 0, 4, 3, 2, 1,
   8, 7, 0, 5, 4, 3, 2, 1, 8, 0, 6, 5, 4, 3, 2, 1, 0, 7, 6, 5, 4, 3, 2, 1,
   8, 7, 6, 5, 4, 3, 2, 1, 8, 7, 6, 5, 4, 3, 2, 0, 8, 7, 6, 5, 4, 3, 0, 1,
   8, 7, 0, 5, 4, 3, 2, 1, 8, 0, 6, 5, 4, 3, 2, 1, 0, 7, 6, 5, 4, 3, 2, 1,
   8, 7, 6, 5, 4, 3, 2, 1, 8, 7, 6, 5, 4, 3, 2, 0, 8, 7, 6, 5, 4, 3, 0, 1,
   8, 7, 6, 5, 4, 0, 2, 1, 8, 7, 6, 5, 0, 3, 2, 1, 8, 7, 6, 0, 4, 3, 2, 1,
   8, 7, 6, 5, 4, 3, 2, 0, 8, 7, 6, 5, 4, 3, 2, 1, 8, 7, 6, 5, 4, 0, 2, 1,
   8, 7, 6, 5, 4, 3, 0, 1, 8, 7, 6, 0, 4, 3, 2, 1, 8, 7, 6, 5, 0, 3, 2, 1,
   8, 0, 6, 5, 4, 3, 2, 1, 0, 7, 6, 5, 4, 3, 2, 1, 8, 7, 0, 5, 4, 3, 2, 1,
   8, 7, 6, 5, 4, 3, 0, 1, 8, 7, 6, 0, 4, 3, 2, 1, 8, 7, 6, 5, 0, 3, 2, 1,
   8, 0, 6, 5, 4, 3, 2, 1, 0, 7, 6, 5, 4, 3, 2, 1, 8, 7, 0, 5, 4, 3, 2, 1,
   8, 7, 6, 5, 4, 3, 2, 0, 8, 7, 6, 5, 4, 3, 2, 1, 8, 7, 6, 5, 4, 0, 2, 1,
   8, 0, 6, 5, 4, 3, 2, 1, 0, 7, 6, 5, 4, 3, 2, 1, 8, 7, 0, 5, 4, 3, 2, 1,
   8, 7, 6, 5, 4, 3, 2, 0, 8, 7, 6, 5, 4, 3, 2, 1, 8, 7, 6, 5, 4, 0, 2, 1,
   8, 7, 6, 5, 4, 3, 0, 1, 8, 7, 6, 0, 4, 3, 2, 1, 8, 7, 6, 5, 0, 3, 2, 1,
   8, 7, 6, 5, 0, 3, 2, 1, 8, 7, 6, 5, 4, 3, 0, 1, 8, 7, 6, 5, 4, 3, 2, 1,
   8, 7, 6, 0, 4, 3, 2, 1, 8, 7, 6, 5, 4, 0, 2, 1, 8, 7, 6, 5, 4, 3, 2, 0,
   0, 7, 6, 5, 4, 3, 2, 1, 8, 7, 0, 5, 4, 3, 2, 1, 8, 0, 6, 5, 4, 3, 2, 1,
   8, 7, 6, 0, 4, 3, 2, 1, 8, 7, 6, 5, 4, 0, 2, 1, 8, 7, 6, 5, 4, 3, 2, 0,
   0, 7, 6, 5, 4, 3, 2, 1, 8, 7, 0, 5, 4, 3, 2, 1, 8, 0, 6, 5, 4, 3, 2, 1,
   8, 7, 6, 5, 0, 3, 2, 1, 8, 7, 6, 5, 4, 3, 0, 1, 8, 7, 6, 5, 4, 3, 2, 1,
   0, 7, 6, 5, 4, 3, 2, 1, 8, 7, 0, 5, 4, 3, 2, 1, 8, 0, 6, 5, 4, 3, 2, 1,
   8, 7, 6, 5, 0, 3, 2, 1, 8, 7, 6, 5, 4, 3, 0, 1, 8, 7, 6, 5, 4, 3, 2, 1,
   8, 7, 6, 0, 4, 3, 2, 1, 8, 7, 6, 5, 4, 0, 2, 1, 8, 7, 6, 5, 4, 3, 2, 0,
   0, 0, 0, 1, 3, 0, 3, 1, 3, 1, 3, 1, 3, 1, 3, 1]

/-- The random source that yields `exampleDraws`, then zeros. -/
def exampleRng : Rng := { draws := fun k => exampleDraws.getD k 0, pos := 0 }

/-! ## Reads as JavaScript evaluates them -/

/-- The read `board[r][c]` for arbitrary integers `r` and `c`: `none` when
`board[r]` is undefined, so that reading its property `c` throws a TypeError;
`some none` when the row exists and the cell read is undefined. -/
def cellAt (board : Grid) (r c : Int) : Option (Option Nat) :=
  if r < 0 then none
  else
    match board[r.toNat]? with
    | none => none
    | some cells => some (if c < 0 then none else cells[c.toNat]?)

/-- The cell reads of `isValid` in the order the three loops make them.  An
entry is a cell and whether it is another cell than `(row, col)`; the run stops
with `some false` at the first other cell that holds `num`, and with `none` at
the first read that throws. -/
def scanCells (board : Grid) (num : Int) : List (Int × Int × Bool) → Option Bool
  | [] => some true
  | (r, c, other) :: rest =>
    match cellAt board r c with
    | none => none
    | some v =>
      if (v.map Int.ofNat == some num) && other then some false
      else scanCells board num rest

/-- Method `isValid` on arbitrary integer arguments, `none` meaning that the
call threw.  `Math.floor(row / 3)` is the integer division, which rounds down
for the divisor 3. -/
def isValidJs (board : Grid) (row col num : Int) : Option Bool :=
  scanCells board num
    ((List.range 9).map (fun (x : Nat) => (row, (x : Int), decide ((x : Int) ≠ col))) ++
      ((List.range 9).map (fun (x : Nat) => ((x : Int), col, decide ((x : Int) ≠ row))) ++
        (List.range 3).flatMap (fun (i : Nat) => (List.range 3).map (fun (j : Nat) =>
          ((i : Int) + row / 3 * 3, (j : Int) + col / 3 * 3,
            decide ((i : Int) + row / 3 * 3 ≠ row) ||
              decide ((j : Int) + col / 3 * 3 ≠ col))))))

/-! ## The carve-out loop, one pass at a time -/

/-- One pass through the body of the loop of `generateBoard`: whether the
removal was kept, then the board, `holes`, `attempts` and the random source as
the pass leaves them. -/
def carveIter (fuel : Nat) (board : Grid) (holes attempts : Nat) (g : Rng) :
    Option (Bool × Grid × Nat × Nat × Rng) :=
  match pickFilled fuel board ((g.randomInt 9).1) (((g.randomInt 9).2.randomInt 9).1)
      (((g.randomInt 9).2.randomInt 9).2) with
  | none => none
  | some (row, col, g1) =>
    match solve (some countCallback) fuel (board.set row col 0) 0 with
    | none => none
    | some (_, _, solutions) =>
      if solutions != 1 then
        some (false, (board.set row col 0).set row col (board.get row col), holes,
          attempts - 1, g1)
      else some (true, board.set row col 0, holes - 1, attempts, g1)

/-- The loop of `generateBoard` with a log: the board and the random source at
exit, as `carveLoop` gives them, and for each pass, in order, whether its
removal was kept (`true`) or rejected (`false`). -/
def carveLog (fuel : Nat) : Nat → Grid → Nat → Nat → Rng → Option (Grid × List Bool × Rng)
  | 0, _, _, _, _ => none
  | k + 1, board, holes, attempts, g =>
    if decide (holes > 0) && decide (attempts > 0) then
      match carveIter fuel board holes attempts g with
      | none => none
      | some (kept, board1, holes1, attempts1, g1) =>
        match carveLog fuel k board1 holes1 attempts1 g1 with
        | none => none
        | some (board2, log, g2) => some (board2, kept :: log, g2)
    else some (board, [], g)

/-- The states an instance can be in: the one the constructor leaves, and the
one a returning call of `generateBoard` leaves on such an instance. -/
inductive Instance : State → Prop
  | fresh : Instance State.fresh
  | generated {fuel : Nat} {st : State} {difficulty : Option String} {g : Rng}
      {out : Grid × State × Rng} :
      Instance st → generateBoard fuel st difficulty g = some out → Instance out.2.1

/-! ## The shuffle that leaves the array as it is -/

/-- A random source under which every shuffle of nine elements is the
identity: counted from the current position, the draws come in runs of eight,
and each draw of a run hits the loop variable `i` itself, so that the swap
exchanges a cell with itself. -/
def IdShuffle (g : Rng) : Prop :=
  ∀ k, g.draws (g.pos + k) % (9 - k % 8) = 8 - k % 8

/-- The random source whose draws are 8, 7, ..., 1, over and over. -/
def idRng : Rng := { draws := fun k => 8 - k % 8, pos := 0 }

/-- The base pattern whose cell `(r, c)` holds
`((3 * (r mod 3) + floor(r / 3) + c) mod 9) + 1`. -/
def canonical : Grid :=
  (List.range 9).map (fun r => (List.range 9).map (fun c =>
    (3 * (r % 3) + r / 3 + c) % 9 + 1))

/-- The board `lexFirst` with the cells (0,0), (0,1), (3,0), (3,1) and (0,4),
(0,5), (3,4), (3,5) emptied; each group of four can be filled in two ways. -/
def fourWayBoard : Grid :=
  [[0, 0, 3, 4, 0, 0, 7, 8, 9], [4, 5, 6, 7, 8, 9, 1, 2, 3], [7, 8, 9, 1, 2, 3, 4, 5, 6],
   [0, 0, 4, 3, 0, 0, 8, 9, 7], [3, 6, 5, 8, 9, 7, 2, 1, 4], [8, 9, 7, 2, 1, 4, 3, 6, 5],
   [5, 3, 1, 6, 4, 2, 9, 7, 8], [6, 4, 2, 9, 7, 8, 5, 3, 1], [9, 7, 8, 5, 3, 1, 6, 4, 2]]

/-- A full grid with a conflict: `lexFirst` with a second 1 in row 0. -/
def clashBoard : Grid :=
  [[1, 1, 3, 4, 5, 6, 7, 8, 9], [4, 5, 6, 7, 8, 9, 1, 2, 3], [7, 8, 9, 1, 2, 3, 4, 5, 6],
   [2, 1, 4, 3, 6, 5, 8, 9, 7], [3, 6, 5, 8, 9, 7, 2, 1, 4], [8, 9, 7, 2, 1, 4, 3, 6, 5],
   [5, 3, 1, 6, 4, 2, 9, 7, 8], [6, 4, 2, 9, 7, 8, 5, 3, 1], [9, 7, 8, 5, 3, 1, 6, 4, 2]]

/-- The grid `lexFirst` with the digits 1 and 2 of the cells (0,0), (0,1),
(3,0), (3,1) exchanged. -/
def swapFirst : Grid :=
  [[2, 1, 3, 4, 5, 6, 7, 8, 9], [4, 5, 6, 7, 8, 9, 1, 2, 3], [7, 8, 9, 1, 2, 3, 4, 5, 6],
   [1, 2, 4, 3, 6, 5, 8, 9, 7], [3, 6, 5, 8, 9, 7, 2, 1, 4], [8, 9, 7, 2, 1, 4, 3, 6, 5],
   [5, 3, 1, 6, 4, 2, 9, 7, 8], [6, 4, 2, 9, 7, 8, 5, 3, 1], [9, 7, 8, 5, 3, 1, 6, 4, 2]]

/-- The grid `lexFirst` with the digits 5 and 6 of the cells (0,4), (0,5),
(3,4), (3,5) exchanged. -/
def swapSecond : Grid :=
  [[1, 2, 3, 4, 6, 5, 7, 8, 9], [4, 5, 6, 7, 8, 9, 1, 2, 3], [7, 8, 9, 1, 2, 3, 4, 5, 6],
   [2, 1, 4, 3, 5, 6, 8, 9, 7], [3, 6, 5, 8, 9, 7, 2, 1, 4], [8, 9, 7, 2, 1, 4, 3, 6, 5],
   [5, 3, 1, 6, 4, 2, 9, 7, 8], [6, 4, 2, 9, 7, 8, 5, 3, 1], [9, 7, 8, 5, 3, 1, 6, 4, 2]]

/-- A second run of random draws, for a call on the instance `exampleRng`
leaves: eight draws for each of three shuffles, all of them the identity, then
the cells drawn by the carve-out loop: (0,0), (0,1), (3,0), and five times
(3,1). -/
def exampleDraws2 : List Nat :=
  [8, 7, 6, 5, 4, 3, 2, 1, 8, 7, 6, 5, 4, 3, 2, 1, 8, 7, 6, 5, 4, 3, 2, 1,
   0, 0, 0, 1, 3, 0, 3, 1, 3, 1, 3, 1, 3, 1, 3, 1]

/-- The random source that yields `exampleDraws2`, then zeros. -/
def exampleRng2 : Rng := { draws := fun k => exampleDraws2.getD k 0, pos := 0 }

/-! ## A callback that writes the board -/

/-- Method `solve` called with a callback that may write the board.  The
callback is a closure over the board it was created next to: besides its own
state it returns the board as it leaves it, and `solve` goes on with that
board.  The loop is `solveLoop`, in the mode with a callback. -/
def solveW {σ : Type} (callback : Grid → σ → Grid × σ) :
    Nat → Grid → σ → Option (Bool × Grid × σ)
  | 0, _, _ => none
  | fuel + 1, board, s =>
    match findEmpty board with
    | none => some (true, (callback board s).1, (callback board s).2)
    | some (row, col) =>
      solveLoop (solveW callback fuel) true row col [1, 2, 3, 4, 5, 6, 7, 8, 9] board s

/-! ## Reading and writing cells -/

theorem is9x9_iff (b : Grid) :
    is9x9 b = true ↔ b.length = 9 ∧ ∀ row ∈ b, row.length = 9 := by
  simp [is9x9]

theorem is9x9_length {b : Grid} (h : is9x9 b = true) : b.length = 9 :=
  ((is9x9_iff b).1 h).1

theorem is9x9_row_length {b : Grid} (h : is9x9 b = true) {r : Nat} (hr : r < 9) :
    (b.getD r []).length = 9 := by
  obtain ⟨hl, hrow⟩ := (is9x9_iff b).1 h
  have hr' : r < b.length := by omega
  rw [List.getD_eq_getElem _ _ hr']
  exact hrow _ (List.getElem_mem _)

theorem get_set_same {b : Grid} (h : is9x9 b = true) {r c : Nat} (hr : r < 9) (hc : c < 9)
    (v : Nat) : (b.set r c v).get r c = v := by
  have hl := is9x9_length h
  have hrl := is9x9_row_length h hr
  have hr' : r < b.length := by omega
  rw [List.getD_eq_getElem _ _ hr'] at hrl
  simp [Grid.get, Grid.set, List.getD_eq_getElem?_getD, List.getElem?_set, hl, hr, hrl, hc]

theorem get_set_other (b : Grid) {r c r' c' : Nat} (v : Nat) (hne : ¬(r' = r ∧ c' = c)) :
    (b.set r c v).get r' c' = b.get r' c' := by
  unfold Grid.get Grid.set
  by_cases h1 : r' = r
  · subst h1
    have h2 : c' ≠ c := fun h => hne ⟨rfl, h⟩
    by_cases hlt : r' < b.length
    · simp [List.getD_eq_getElem?_getD, List.getElem?_set, hlt, Ne.symm h2]
    · have hle : b.length ≤ r' := by omega
      simp [List.getD_eq_getElem?_getD, List.getElem?_set, hlt, List.getElem?_eq_none hle]
  · simp [List.getD_eq_getElem?_getD, List.getElem?_set, Ne.symm h1]

theorem get_set {b : Grid} (h : is9x9 b = true) {r c : Nat} (hr : r < 9) (hc : c < 9)
    (v r' c' : Nat) :
    (b.set r c v).get r' c' = if r' = r ∧ c' = c then v else b.get r' c' := by
  split
  · next h1 => rw [h1.1, h1.2]; exact get_set_same h hr hc v
  · next h1 => exact get_set_other b v h1

theorem is9x9_set {b : Grid} (h : is9x9 b = true) (r c v : Nat) :
    is9x9 (b.set r c v) = true := by
  obtain ⟨hl, hrow⟩ := (is9x9_iff b).1 h
  by_cases hr : r < 9
  · rw [is9x9_iff]
    refine ⟨by simp [Grid.set, hl], ?_⟩
    intro row hmem
    unfold Grid.set at hmem
    rcases List.mem_or_eq_of_mem_set hmem with h1 | h1
    · exact hrow _ h1
    · subst h1
      rw [List.length_set]
      exact is9x9_row_length h hr
  · have hle : b.length ≤ r := by omega
    unfold Grid.set
    rw [List.set_eq_of_length_le hle]
    exact h

theorem grid_ext {a b : Grid} (ha : is9x9 a = true) (hb : is9x9 b = true)
    (h : ∀ r c, r < 9 → c < 9 → a.get r c = b.get r c) : a = b := by
  have hla := is9x9_length ha
  have hlb := is9x9_length hb
  apply List.ext_getElem (by omega)
  intro r h1 h2
  have hr : r < 9 := by omega
  have h3 := is9x9_row_length ha hr
  have h4 := is9x9_row_length hb hr
  rw [List.getD_eq_getElem _ _ h1] at h3
  rw [List.getD_eq_getElem _ _ h2] at h4
  apply List.ext_getElem (by omega)
  intro c h5 h6
  have := h r c hr (by omega)
  simpa [Grid.get, List.getD_eq_getElem?_getD, List.getElem?_eq_getElem, h1, h2, h5, h6] using this

/-! ## The placement rule -/

theorem isValid_iff (board : Grid) {row col : Nat} (num : Nat) (hr : row < 9) (hc : col < 9) :
    isValid board row col num = true ↔
      ∀ r c, r < 9 → c < 9 → (r ≠ row ∨ c ≠ col) →
        (r = row ∨ c = col ∨ (r / 3 = row / 3 ∧ c / 3 = col / 3)) → board.get r c ≠ num := by
  unfold isValid
  simp only [Bool.and_eq_true, List.all_eq_true, List.mem_range, Bool.not_eq_true',
    Bool.and_eq_false_iff, Bool.or_eq_false_iff, beq_eq_false_iff_ne, bne_eq_false_iff_eq, ne_eq]
  constructor
  · rintro ⟨h1, h2, h3⟩ r c hr' hc' hne hp
    rcases hp with rfl | rfl | ⟨e1, e2⟩
    · rcases h1 c hc' with h | h
      · exact h
      · exact absurd h (by tauto)
    · rcases h2 r hr' with h | h
      · exact h
      · exact absurd h (by tauto)
    · have ha : r % 3 + row / 3 * 3 = r := by omega
      have hb : c % 3 + col / 3 * 3 = c := by omega
      have := h3 (r % 3) (Nat.mod_lt _ (by norm_num)) (c % 3) (Nat.mod_lt _ (by norm_num))
      rw [ha, hb] at this
      rcases this with h | ⟨h, h'⟩
      · exact h
      · exact absurd (And.intro h h') (by tauto)
  · intro h
    refine ⟨fun x hx => ?_, fun x hx => ?_, fun i hi j hj => ?_⟩
    · by_cases hxc : x = col
      · exact Or.inr hxc
      · exact Or.inl (h row x hr hx (Or.inr hxc) (Or.inl rfl))
    · by_cases hxr : x = row
      · exact Or.inr hxr
      · exact Or.inl (h x col hx hc (Or.inl hxr) (Or.inr (Or.inl rfl)))
    · by_cases hxy : i + row / 3 * 3 = row ∧ j + col / 3 * 3 = col
      · exact Or.inr hxy
      · refine Or.inl (h _ _ (by omega) (by omega) (by tauto) (Or.inr (Or.inr ⟨by omega, by omega⟩)))

theorem all_range_congr {n : Nat} {f g : Nat → Bool} (h : ∀ x, x < n → f x = g x) :
    (List.range n).all f = (List.range n).all g := by
  rw [Bool.eq_iff_iff]
  simp only [List.all_eq_true, List.mem_range]
  constructor
  · intro h1 x hx
    rw [← h x hx]
    exact h1 x hx
  · intro h1 x hx
    rw [h x hx]
    exact h1 x hx

theorem isValid_set_self (board : Grid) (row col num v : Nat) :
    isValid (board.set row col v) row col num = isValid board row col num := by
  unfold isValid
  congr 1
  · apply all_range_congr
    intro x _
    by_cases hx : x = col
    · simp [hx]
    · rw [get_set_other board v (by tauto)]
  congr 1
  · apply all_range_congr
    intro x _
    by_cases hx : x = row
    · simp [hx]
    · rw [get_set_other board v (by tauto)]
  · apply all_range_congr
    intro i _
    apply all_range_congr
    intro j _
    by_cases hx : i + row / 3 * 3 = row ∧ j + col / 3 * 3 = col
    · simp [hx.1, hx.2]
    · rw [get_set_other board v hx]

/-! ## The win check -/

theorem checkWin_iff (g : Grid) :
    checkWin g = true ↔
      (∀ r c, r < 9 → c < 9 → g.get r c ≠ 0) ∧
      (∀ r c, r < 9 → c < 9 → isValid g r c (g.get r c) = true) := by
  unfold checkWin
  simp only [List.all_eq_true, List.mem_range, Bool.and_eq_true, Bool.not_eq_true',
    beq_eq_false_iff_ne, ne_eq]
  constructor
  · intro h
    exact ⟨fun r c hr hc => (h r hr c hc).1, fun r c hr hc => (h r hr c hc).2⟩
  · rintro ⟨h1, h2⟩ r hr c hc
    exact ⟨h1 r c hr hc, h2 r c hr hc⟩

/-- A full board passes the win check exactly when no two distinct cells that
share a row, a column or a box hold the same value. -/
theorem checkWin_iff_distinct (g : Grid) :
    checkWin g = true ↔
      (∀ r c, r < 9 → c < 9 → g.get r c ≠ 0) ∧
      (∀ r c r1 c1, r < 9 → c < 9 → r1 < 9 → c1 < 9 → (r1 ≠ r ∨ c1 ≠ c) →
        (r1 = r ∨ c1 = c ∨ (r1 / 3 = r / 3 ∧ c1 / 3 = c / 3)) → g.get r1 c1 ≠ g.get r c) := by
  rw [checkWin_iff]
  constructor
  · rintro ⟨h1, h2⟩
    refine ⟨h1, fun r c r1 c1 hr hc hr1 hc1 hne hp => ?_⟩
    exact (isValid_iff g _ hr hc).1 (h2 r c hr hc) r1 c1 hr1 hc1 hne hp
  · rintro ⟨h1, h2⟩
    refine ⟨h1, fun r c hr hc => ?_⟩
    rw [isValid_iff g _ hr hc]
    intro r1 c1 hr1 hc1 hne hp
    exact h2 r c r1 c1 hr hc hr1 hc1 hne hp

/-! ## Nine cells holding each digit once -/

theorem digits_nodup : (List.range' 1 9).Nodup := by decide

theorem mem_digits (d : Nat) : d ∈ List.range' 1 9 ↔ 1 ≤ d ∧ d ≤ 9 := by
  rw [List.mem_range'_1]
  omega

theorem count_one_of_nodup {l : List Nat} (hlen : l.length = 9) (hle : ∀ x ∈ l, x ≤ 9)
    (hnz : ∀ x ∈ l, x ≠ 0) (hnd : l.Nodup) (d : Nat) (h1 : 1 ≤ d) (h9 : d ≤ 9) :
    l.count d = 1 := by
  have hsub : l ⊆ List.range' 1 9 := by
    intro x hx
    rw [mem_digits]
    have := hle x hx
    have := hnz x hx
    omega
  have hperm : l.Perm (List.range' 1 9) :=
    (List.subperm_of_subset hnd hsub).perm_of_length_le (by simp [hlen])
  rw [hperm.count_eq]
  exact List.count_eq_one_of_mem digits_nodup ((mem_digits d).2 ⟨h1, h9⟩)

theorem nodup_of_count_one {l : List Nat} (hlen : l.length = 9)
    (h : ∀ d, 1 ≤ d → d ≤ 9 → l.count d = 1) :
    (∀ x ∈ l, 1 ≤ x ∧ x ≤ 9) ∧ l.Nodup := by
  have hsub : List.range' 1 9 ⊆ l := by
    intro x hx
    rw [mem_digits] at hx
    have := h x hx.1 hx.2
    exact List.count_pos_iff.1 (by omega)
  have hperm : (List.range' 1 9).Perm l :=
    (List.subperm_of_subset digits_nodup hsub).perm_of_length_le (by simp [hlen])
  refine ⟨fun x hx => ?_, hperm.nodup_iff.1 digits_nodup⟩
  exact (mem_digits x).1 (hperm.mem_iff.2 hx)

/-- The nine cells read through an injective indexing are free of duplicates
exactly when they differ pairwise. -/
theorem nodup_cells_iff (f : Nat → Nat) :
    ((List.range 9).map f).Nodup ↔ ∀ i j, i < 9 → j < 9 → i ≠ j → f i ≠ f j := by
  rw [List.nodup_map_iff_inj_on (List.nodup_range 9)]
  simp only [List.mem_range]
  constructor
  · intro h i j hi hj hne heq
    exact hne (h i hi j hj heq)
  · intro h i hi j hj heq
    by_contra hne
    exact h i j hi hj hne heq

theorem mem_rowCells {b : Grid} {k x : Nat} (h : x ∈ rowCells b k) :
    ∃ c, c < 9 ∧ b.get k c = x := by
  simpa [rowCells] using h

theorem mem_colCells {b : Grid} {k x : Nat} (h : x ∈ colCells b k) :
    ∃ r, r < 9 ∧ b.get r k = x := by
  simpa [colCells] using h

theorem mem_boxCells {b : Grid} {k x : Nat} (h : x ∈ boxCells b k) :
    ∃ i, i < 9 ∧ b.get (k / 3 * 3 + i / 3) (k % 3 * 3 + i % 3) = x := by
  simpa [boxCells] using h

theorem latin_of_checkWin {b : Grid} (hrange : ∀ r c, r < 9 → c < 9 → b.get r c ≤ 9)
    (hwin : checkWin b = true) (k : Nat) (hk : k < 9) (d : Nat) (h1 : 1 ≤ d) (h9 : d ≤ 9) :
    (rowCells b k).count d = 1 ∧ (colCells b k).count d = 1 ∧ (boxCells b k).count d = 1 := by
  obtain ⟨hnz, hdis⟩ := (checkWin_iff_distinct b).1 hwin
  refine ⟨?_, ?_, ?_⟩
  · apply count_one_of_nodup (by simp [rowCells]) _ _ _ d h1 h9
    · intro x hx
      obtain ⟨c, hc, rfl⟩ := mem_rowCells hx
      exact hrange k c hk hc
    · intro x hx
      obtain ⟨c, hc, rfl⟩ := mem_rowCells hx
      exact hnz k c hk hc
    · unfold rowCells
      rw [nodup_cells_iff]
      intro i j hi hj hne
      exact hdis k j k i hk hj hk hi (Or.inr hne) (Or.inl rfl)
  · apply count_one_of_nodup (by simp [colCells]) _ _ _ d h1 h9
    · intro x hx
      obtain ⟨r, hr, rfl⟩ := mem_colCells hx
      exact hrange r k hr hk
    · intro x hx
      obtain ⟨r, hr, rfl⟩ := mem_colCells hx
      exact hnz r k hr hk
    · unfold colCells
      rw [nodup_cells_iff]
      intro i j hi hj hne
      exact hdis j k i k hj hk hi hk (Or.inl hne) (Or.inr (Or.inl rfl))
  · apply count_one_of_nodup (by simp [boxCells]) _ _ _ d h1 h9
    · intro x hx
      obtain ⟨i, hi, rfl⟩ := mem_boxCells hx
      exact hrange _ _ (by omega) (by omega)
    · intro x hx
      obtain ⟨i, hi, rfl⟩ := mem_boxCells hx
      exact hnz _ _ (by omega) (by omega)
    · unfold boxCells
      rw [nodup_cells_iff]
      intro i j hi hj hne
      refine hdis _ _ _ _ (by omega) (by omega) (by omega) (by omega) (by omega)
        (Or.inr (Or.inr ⟨by omega, by omega⟩))

theorem checkWin_of_latin {b : Grid}
    (h : ∀ k, k < 9 → ∀ d, 1 ≤ d → d ≤ 9 →
      (rowCells b k).count d = 1 ∧ (colCells b k).count d = 1 ∧ (boxCells b k).count d = 1) :
    checkWin b = true := by
  have hrow : ∀ k, k < 9 → (∀ x ∈ rowCells b k, 1 ≤ x ∧ x ≤ 9) ∧ (rowCells b k).Nodup :=
    fun k hk => nodup_of_count_one (by simp [rowCells]) (fun d h1 h9 => (h k hk d h1 h9).1)
  have hcol : ∀ k, k < 9 → (∀ x ∈ colCells b k, 1 ≤ x ∧ x ≤ 9) ∧ (colCells b k).Nodup :=
    fun k hk => nodup_of_count_one (by simp [colCells]) (fun d h1 h9 => (h k hk d h1 h9).2.1)
  have hbox : ∀ k, k < 9 → (∀ x ∈ boxCells b k, 1 ≤ x ∧ x ≤ 9) ∧ (boxCells b k).Nodup :=
    fun k hk => nodup_of_count_one (by simp [boxCells]) (fun d h1 h9 => (h k hk d h1 h9).2.2)
  rw [checkWin_iff_distinct]
  refine ⟨fun r c hr hc => ?_, fun r c r1 c1 hr hc hr1 hc1 hne hp => ?_⟩
  · have hmem : b.get r c ∈ rowCells b r :=
      List.mem_map.2 ⟨c, List.mem_range.2 hc, rfl⟩
    have := ((hrow r hr).1 _ hmem).1
    omega
  · rcases hp with rfl | rfl | ⟨e1, e2⟩
    · have hnd := (hrow r1 hr).2
      unfold rowCells at hnd
      rw [nodup_cells_iff] at hnd
      exact hnd c1 c hc1 hc (by tauto)
    · have hnd := (hcol c1 hc).2
      unfold colCells at hnd
      rw [nodup_cells_iff] at hnd
      exact hnd r1 r hr1 hr (by tauto)
    · have hnd := (hbox (r / 3 * 3 + c / 3) (by omega)).2
      unfold boxCells at hnd
      rw [nodup_cells_iff] at hnd
      have key := hnd (r1 % 3 * 3 + c1 % 3) (r % 3 * 3 + c % 3) (by omega) (by omega) (by omega)
      have a1 : (r / 3 * 3 + c / 3) / 3 * 3 + (r1 % 3 * 3 + c1 % 3) / 3 = r1 := by omega
      have a2 : (r / 3 * 3 + c / 3) % 3 * 3 + (r1 % 3 * 3 + c1 % 3) % 3 = c1 := by omega
      have a3 : (r / 3 * 3 + c / 3) / 3 * 3 + (r % 3 * 3 + c % 3) / 3 = r := by omega
      have a4 : (r / 3 * 3 + c / 3) % 3 * 3 + (r % 3 * 3 + c % 3) % 3 = c := by omega
      rw [a1, a2, a3, a4] at key
      exact key

/-! ## The first empty cell -/

theorem findSome_range_none {α : Type} (f : Nat → Option α) (n : Nat) :
    (List.range n).findSome? f = none ↔ ∀ i, i < n → f i = none := by
  simp [List.findSome?_eq_none_iff]

theorem findSome_range_some {α : Type} (f : Nat → Option α) (n : Nat) (a : α)
    (h : (List.range n).findSome? f = some a) :
    ∃ i, i < n ∧ f i = some a ∧ ∀ j, j < i → f j = none := by
  induction n with
  | zero => simp at h
  | succ n ih =>
    rw [List.range_succ, List.findSome?_append] at h
    cases hn : (List.range n).findSome? f with
    | some x =>
      rw [hn] at h
      simp at h
      rw [h] at hn
      obtain ⟨i, hi, h1, h2⟩ := ih hn
      exact ⟨i, by omega, h1, h2⟩
    | none =>
      rw [hn] at h
      simp only [List.findSome?_cons, List.findSome?_nil] at h
      refine ⟨n, by omega, ?_, (findSome_range_none f n).1 hn⟩
      cases hf : f n with
      | none => simp [hf] at h
      | some y => simpa [hf] using h

theorem findEmpty_none_iff (b : Grid) :
    findEmpty b = none ↔ ∀ r c, r < 9 → c < 9 → b.get r c ≠ 0 := by
  unfold findEmpty
  rw [findSome_range_none]
  constructor
  · intro h r c hr hc
    have := (findSome_range_none _ 9).1 (h r hr) c hc
    simpa using this
  · intro h r hr
    rw [findSome_range_none]
    intro c hc
    simpa using h r c hr hc

theorem findEmpty_some {b : Grid} {r c : Nat} (h : findEmpty b = some (r, c)) :
    r < 9 ∧ c < 9 ∧ b.get r c = 0 ∧
      ∀ r1 c1, r1 < 9 → c1 < 9 → (r1 < r ∨ (r1 = r ∧ c1 < c)) → b.get r1 c1 ≠ 0 := by
  unfold findEmpty at h
  obtain ⟨i, hi, h1, h2⟩ := findSome_range_some _ 9 _ h
  obtain ⟨j, hj, h3, h4⟩ := findSome_range_some _ 9 _ h1
  have h5 : b.get i j = 0 ∧ i = r ∧ j = c := by
    by_cases hz : b.get i j = 0
    · simpa [hz] using h3
    · simp [hz] at h3
  obtain ⟨hz, rfl, rfl⟩ := h5
  refine ⟨hi, hj, hz, ?_⟩
  intro r1 c1 hr1 hc1 hlt
  rcases hlt with hlt | ⟨rfl, hlt⟩
  · have := (findSome_range_none _ 9).1 (h2 r1 hlt) c1 hc1
    simpa using this
  · simpa using h4 c1 hlt

/-! ## Completions of a board -/

theorem conflictFree_iff (b : Grid) :
    conflictFree b = true ↔
      ∀ r c, r < 9 → c < 9 → b.get r c ≠ 0 → isValid b r c (b.get r c) = true := by
  unfold conflictFree
  simp only [List.all_eq_true, List.mem_range, Bool.or_eq_true, beq_iff_eq]
  constructor
  · intro h r c hr hc hne
    rcases h r hr c hc with h1 | h1
    · exact absurd h1 hne
    · exact h1
  · intro h r hr c hc
    by_cases hz : b.get r c = 0
    · exact Or.inl hz
    · exact Or.inr (h r c hr hc hz)

theorem completes_iff (b g : Grid) :
    completes b g = true ↔
      is9x9 g = true ∧
      (∀ r c, r < 9 → c < 9 → b.get r c = 0 → 1 ≤ g.get r c ∧ g.get r c ≤ 9) ∧
      (∀ r c, r < 9 → c < 9 → b.get r c ≠ 0 → g.get r c = b.get r c) ∧
      checkWin g = true := by
  unfold completes
  simp only [Bool.and_eq_true, List.all_eq_true, List.mem_range]
  constructor
  · rintro ⟨h1, h2, h3⟩
    refine ⟨h1, fun r c hr hc hz => ?_, fun r c hr hc hz => ?_, h3⟩
    · have := h2 r hr c hc
      simpa [hz] using this
    · have := h2 r hr c hc
      simpa [hz] using this
  · rintro ⟨h1, h2, h3, h4⟩
    refine ⟨h1, fun r hr c hc => ?_, h4⟩
    by_cases hz : b.get r c = 0
    · simpa [hz] using h2 r c hr hc hz
    · simpa [hz] using h3 r c hr hc hz

theorem set_restore {b : Grid} (h : is9x9 b = true) {r c : Nat} (hr : r < 9) (hc : c < 9)
    (n : Nat) : (b.set r c n).set r c (b.get r c) = b := by
  apply grid_ext (is9x9_set (is9x9_set h _ _ _) _ _ _) h
  intro r1 c1 _ _
  rw [get_set (is9x9_set h _ _ _) hr hc, get_set h hr hc]
  split
  · next h1 => rw [h1.1, h1.2]
  · rfl

theorem completes_full {b : Grid} (h9 : is9x9 b = true) (hcf : conflictFree b = true)
    (hfull : findEmpty b = none) (g : Grid) : completes b g = true ↔ g = b := by
  have hnz := (findEmpty_none_iff b).1 hfull
  rw [completes_iff]
  constructor
  · rintro ⟨h1, _, h3, _⟩
    exact grid_ext h1 h9 (fun r c hr hc => h3 r c hr hc (hnz r c hr hc))
  · rintro rfl
    refine ⟨h9, fun r c hr hc hz => absurd hz (hnz r c hr hc), fun _ _ _ _ _ => rfl, ?_⟩
    rw [checkWin_iff]
    exact ⟨hnz, fun r c hr hc => (conflictFree_iff g).1 hcf r c hr hc (hnz r c hr hc)⟩

theorem completes_set {b : Grid} (h9 : is9x9 b = true) {r c n : Nat} (hr : r < 9) (hc : c < 9)
    (hz : b.get r c = 0) (h1 : 1 ≤ n) (hn : n ≤ 9) (g : Grid) :
    completes (b.set r c n) g = true ↔ completes b g = true ∧ g.get r c = n := by
  rw [completes_iff, completes_iff]
  constructor
  · rintro ⟨a1, a2, a3, a4⟩
    have hg : g.get r c = n := by
      have := a3 r c hr hc (by rw [get_set_same h9 hr hc]; omega)
      rw [this, get_set_same h9 hr hc]
    refine ⟨⟨a1, fun r1 c1 hr1 hc1 hz1 => ?_, fun r1 c1 hr1 hc1 hz1 => ?_, a4⟩, hg⟩
    · by_cases he : r1 = r ∧ c1 = c
      · rw [he.1, he.2, hg]; exact ⟨h1, hn⟩
      · exact a2 r1 c1 hr1 hc1 (by rw [get_set_other b n he]; exact hz1)
    · have he : ¬(r1 = r ∧ c1 = c) := by
        rintro ⟨rfl, rfl⟩
        exact hz1 hz
      have := a3 r1 c1 hr1 hc1 (by rw [get_set_other b n he]; exact hz1)
      rw [this, get_set_other b n he]
  · rintro ⟨⟨a1, a2, a3, a4⟩, hg⟩
    refine ⟨a1, fun r1 c1 hr1 hc1 hz1 => ?_, fun r1 c1 hr1 hc1 hz1 => ?_, a4⟩
    · have he : ¬(r1 = r ∧ c1 = c) := by
        rintro ⟨rfl, rfl⟩
        rw [get_set_same h9 hr hc] at hz1
        omega
      rw [get_set_other b n he] at hz1
      exact a2 r1 c1 hr1 hc1 hz1
    · by_cases he : r1 = r ∧ c1 = c
      · rw [he.1, he.2, hg, get_set_same h9 hr hc]
      · rw [get_set_other b n he] at hz1 ⊢
        exact a3 r1 c1 hr1 hc1 hz1

theorem conflictFree_set {b : Grid} (h9 : is9x9 b = true) (hcf : conflictFree b = true)
    {r c n : Nat} (hr : r < 9) (hc : c < 9) (hv : isValid b r c n = true) :
    conflictFree (b.set r c n) = true := by
  rw [conflictFree_iff] at hcf ⊢
  intro r1 c1 hr1 hc1 hnz
  by_cases he : r1 = r ∧ c1 = c
  · obtain ⟨rfl, rfl⟩ := he
    rw [get_set_same h9 hr hc, isValid_set_self]
    exact hv
  · rw [get_set_other b n he] at hnz ⊢
    have hold := (isValid_iff b _ hr1 hc1).1 (hcf r1 c1 hr1 hc1 hnz)
    rw [isValid_iff _ _ hr1 hc1]
    intro r2 c2 hr2 hc2 hne hp
    by_cases he2 : r2 = r ∧ c2 = c
    · obtain ⟨rfl, rfl⟩ := he2
      rw [get_set_same h9 hr hc]
      have := (isValid_iff b n hr hc).1 hv r1 c1 hr1 hc1 (by tauto) (by
        rcases hp with h | h | ⟨h, h'⟩
        · exact Or.inl h.symm
        · exact Or.inr (Or.inl h.symm)
        · exact Or.inr (Or.inr ⟨h.symm, h'.symm⟩))
      exact fun h => this h.symm
    · rw [get_set_other b n he2]
      exact hold r2 c2 hr2 hc2 hne hp

theorem no_completion_of_invalid {b g : Grid} {r c n : Nat} (hr : r < 9) (hc : c < 9)
    (hn : n ≠ 0) (hv : isValid b r c n = false) (hg : completes b g = true) :
    g.get r c ≠ n := by
  obtain ⟨_, _, a3, a4⟩ := (completes_iff b g).1 hg
  have hnot : ¬ (isValid b r c n = true) := by simp [hv]
  rw [isValid_iff b n hr hc] at hnot
  push_neg at hnot
  obtain ⟨r1, c1, hr1, hc1, hne, hp, heq⟩ := hnot
  have hg1 : g.get r1 c1 = n := by
    rw [a3 r1 c1 hr1 hc1 (by rw [heq]; exact hn), heq]
  have := ((checkWin_iff_distinct g).1 a4).2 r c r1 c1 hr hc hr1 hc1 hne hp
  rw [hg1] at this
  exact fun h => this h.symm

/-! ## Counting the empty cells -/

theorem countP_range_flip (p q : Nat → Bool) (k : Nat) :
    ∀ n, k < n → (∀ i, i < n → i ≠ k → p i = q i) → p k = true → q k = false →
      (List.range n).countP p = (List.range n).countP q + 1 := by
  intro n
  induction n with
  | zero => intro h; omega
  | succ n ih =>
    intro hk hag hp hq
    rw [List.range_succ, List.countP_append, List.countP_append]
    by_cases hkn : k = n
    · subst hkn
      have hsame : (List.range k).countP p = (List.range k).countP q := by
        apply List.countP_congr
        intro i hi
        rw [List.mem_range] at hi
        rw [hag i (by omega) (by omega)]
      simp [hsame, hp, hq]
    · have h1 := ih (by omega) (fun i hi hne => hag i (by omega) hne) hp hq
      have h2 : p n = q n := hag n (by omega) (fun h => hkn h.symm)
      have h3 : List.countP p [n] = List.countP q [n] := by
        simp [List.countP_cons, h2]
      rw [h1, h3]
      omega

theorem zeroCount_le (b : Grid) : zeroCount b ≤ 81 := by
  unfold zeroCount
  have := List.countP_le_length (fun k => b.get (k / 9) (k % 9) == 0) (l := List.range 81)
  simpa using this

theorem zeroCount_fill {b : Grid} (h9 : is9x9 b = true) {r c n : Nat} (hr : r < 9) (hc : c < 9)
    (hz : b.get r c = 0) (hn : n ≠ 0) : zeroCount b = zeroCount (b.set r c n) + 1 := by
  unfold zeroCount
  apply countP_range_flip _ _ (r * 9 + c) 81 (by omega)
  · intro i _ hne
    have he : ¬(i / 9 = r ∧ i % 9 = c) := by omega
    rw [get_set_other b n he]
  · have e1 : (r * 9 + c) / 9 = r := by omega
    have e2 : (r * 9 + c) % 9 = c := by omega
    simp [e1, e2, hz]
  · have e1 : (r * 9 + c) / 9 = r := by omega
    have e2 : (r * 9 + c) % 9 = c := by omega
    simp [e1, e2, get_set_same h9 hr hc, hn]

theorem zeroCount_clear {b : Grid} (h9 : is9x9 b = true) {r c : Nat} (hr : r < 9) (hc : c < 9)
    (hnz : b.get r c ≠ 0) : zeroCount (b.set r c 0) = zeroCount b + 1 := by
  unfold zeroCount
  apply countP_range_flip _ _ (r * 9 + c) 81 (by omega)
  · intro i _ hne
    have he : ¬(i / 9 = r ∧ i % 9 = c) := by omega
    rw [get_set_other b 0 he]
  · have e1 : (r * 9 + c) / 9 = r := by omega
    have e2 : (r * 9 + c) % 9 = c := by omega
    simp [e1, e2, get_set_same h9 hr hc]
  · have e1 : (r * 9 + c) / 9 = r := by omega
    have e2 : (r * 9 + c) % 9 = c := by omega
    simp [e1, e2, hnz]

theorem zeroCount_eq_zero_iff (b : Grid) :
    zeroCount b = 0 ↔ ∀ r c, r < 9 → c < 9 → b.get r c ≠ 0 := by
  unfold zeroCount
  rw [List.countP_eq_zero]
  simp only [List.mem_range, beq_iff_eq]
  constructor
  · intro h r c hr hc
    have := h (r * 9 + c) (by omega)
    have e1 : (r * 9 + c) / 9 = r := by omega
    have e2 : (r * 9 + c) % 9 = c := by omega
    rwa [e1, e2] at this
  · intro h k hk
    exact h _ _ (by omega) (Nat.mod_lt _ (by norm_num))

/-! ## The solver in counting mode -/

theorem callbackOn_append {σ : Type} (f : Grid → σ → σ) (l1 l2 : List Grid) (s : σ) :
    callbackOn f (l1 ++ l2) s = callbackOn f l2 (callbackOn f l1 s) := by
  simp [callbackOn, List.foldl_append]

theorem callbackOn_blind {σ : Type} (h : σ → σ) (l : List Grid) (s : σ) :
    callbackOn (fun _ => h) l s = h^[l.length] s := by
  induction l generalizing s with
  | nil => rfl
  | cons g l ih =>
    have : callbackOn (fun _ => h) (g :: l) s = callbackOn (fun _ => h) l (h s) := rfl
    rw [this, ih, List.length_cons, Function.iterate_succ_apply]

theorem solveLoop_spec {fuel : Nat} {b : Grid} {r c : Nat} (h9 : is9x9 b = true)
    (hcf : conflictFree b = true) (hr : r < 9) (hc : c < 9) (hz : b.get r c = 0)
    (ih : ∀ b1 : Grid, is9x9 b1 = true → conflictFree b1 = true →
      zeroCount b1 + 1 = zeroCount b →
      ∃ L : List Grid, L.Nodup ∧ (∀ g, g ∈ L ↔ completes b1 g = true) ∧ CountsAs fuel b1 L) :
    ∀ nums : List Nat, (∀ n ∈ nums, 1 ≤ n ∧ n ≤ 9) → nums.Nodup →
      ∃ L : List Grid, L.Nodup ∧
        (∀ g, g ∈ L ↔ (completes b g = true ∧ g.get r c ∈ nums)) ∧
        ∀ (σ : Type) (f : Grid → σ → σ) (s : σ),
          solveLoop (solve (some f) fuel) true r c nums b s
            = some (false, b, callbackOn f L s) := by
  intro nums
  induction nums with
  | nil =>
    intro _ _
    exact ⟨[], List.nodup_nil, by simp, fun σ f s => rfl⟩
  | cons n rest ihr =>
    intro hdig hnd
    have hn := hdig n (List.mem_cons_self _ _)
    obtain ⟨L2, hnd2, hmem2, hrun2⟩ :=
      ihr (fun m hm => hdig m (List.mem_cons_of_mem _ hm)) (List.nodup_cons.1 hnd).2
    have hnotin : n ∉ rest := (List.nodup_cons.1 hnd).1
    cases hv : isValid b r c n with
    | false =>
      refine ⟨L2, hnd2, fun g => ?_, fun σ f s => ?_⟩
      · rw [hmem2 g, List.mem_cons]
        constructor
        · rintro ⟨h1, h2⟩
          exact ⟨h1, Or.inr h2⟩
        · rintro ⟨h1, h2 | h2⟩
          · exact absurd h2 (no_completion_of_invalid hr hc (by omega) hv h1)
          · exact ⟨h1, h2⟩
      · simp only [solveLoop, hv]
        exact hrun2 σ f s
    | true =>
      obtain ⟨L1, hnd1, hmem1, hrun1⟩ := ih (b.set r c n) (is9x9_set h9 _ _ _)
        (conflictFree_set h9 hcf hr hc hv) (zeroCount_fill h9 hr hc hz (by omega)).symm
      refine ⟨L1 ++ L2, ?_, fun g => ?_, fun σ f s => ?_⟩
      · rw [List.nodup_append]
        refine ⟨hnd1, hnd2, ?_⟩
        intro g hg1 hg2
        have e1 := ((completes_set h9 hr hc hz hn.1 hn.2 g).1 ((hmem1 g).1 hg1)).2
        have e2 := ((hmem2 g).1 hg2).2
        rw [e1] at e2
        exact hnotin e2
      · rw [List.mem_append, hmem1 g, hmem2 g, completes_set h9 hr hc hz hn.1 hn.2 g,
          List.mem_cons]
        constructor
        · rintro (⟨h1, h2⟩ | ⟨h1, h2⟩)
          · exact ⟨h1, Or.inl h2⟩
          · exact ⟨h1, Or.inr h2⟩
        · rintro ⟨h1, h2 | h2⟩
          · exact Or.inl ⟨h1, h2⟩
          · exact Or.inr ⟨h1, h2⟩
      · have hback : (b.set r c n).set r c 0 = b := by
          have := set_restore h9 hr hc n
          rwa [hz] at this
        simp only [solveLoop, hv, hrun1 σ f s, Bool.not_true, Bool.and_false, if_true,
          hback]
        rw [callbackOn_append]
        exact hrun2 σ f _

theorem solve_spec : ∀ (fuel : Nat) (b : Grid), is9x9 b = true → conflictFree b = true →
    zeroCount b < fuel →
    ∃ L : List Grid, L.Nodup ∧ (∀ g, g ∈ L ↔ completes b g = true) ∧ CountsAs fuel b L := by
  intro fuel
  induction fuel with
  | zero => intro b _ _ h; omega
  | succ fuel ih =>
    intro b h9 hcf hfuel
    cases hfe : findEmpty b with
    | none =>
      refine ⟨[b], List.nodup_singleton b, fun g => ?_, fun σ f s => ?_⟩
      · rw [completes_full h9 hcf hfe g, List.mem_singleton]
      · simp only [solve, hfe]
        rfl
    | some rc =>
      obtain ⟨r, c⟩ := rc
      obtain ⟨hr, hc, hz, _⟩ := findEmpty_some hfe
      obtain ⟨L, hnd, hmem, hrun⟩ := solveLoop_spec h9 hcf hr hc hz
        (fun b1 h1 h2 h3 => ih b1 h1 h2 (by omega)) [1, 2, 3, 4, 5, 6, 7, 8, 9]
        (by decide) (by decide)
      refine ⟨L, hnd, fun g => ?_, fun σ f s => ?_⟩
      · rw [hmem g]
        constructor
        · exact fun h => h.1
        · intro h
          refine ⟨h, ?_⟩
          have := ((completes_iff b g).1 h).2.1 r c hr hc hz
          generalize g.get r c = v at this
          obtain ⟨h1, h2⟩ := this
          interval_cases v <;> simp
      · simp only [solve, hfe]
        exact hrun σ f s

/-! ## The shuffle -/

theorem swap_length (arr : List Nat) (i j : Nat) : (swap arr i j).length = arr.length := by
  simp [swap]

theorem swap_getElem? (arr : List Nat) {i j : Nat} (hi : i < arr.length) (hj : j < arr.length)
    (k : Nat) :
    (swap arr i j)[k]? = if k = j then arr[i]? else if k = i then arr[j]? else arr[k]? := by
  unfold swap
  rw [List.getElem?_set, List.getElem?_set]
  simp only [List.length_set, List.getD_eq_getElem?_getD, List.getElem?_eq_getElem hi,
    List.getElem?_eq_getElem hj, Option.getD_some, hj, hi, if_true]
  by_cases h1 : k = j
  · simp [h1]
  · by_cases h2 : k = i
    · subst h2
      simp [h1, Ne.symm h1]
    · simp [h1, h2, Ne.symm h1, Ne.symm h2]

theorem mem_swap (arr : List Nat) {i j : Nat} (hi : i < arr.length) (hj : j < arr.length)
    (x : Nat) : x ∈ swap arr i j ↔ x ∈ arr := by
  rw [List.mem_iff_getElem?, List.mem_iff_getElem?]
  constructor
  · rintro ⟨k, hk⟩
    rw [swap_getElem? arr hi hj] at hk
    split at hk
    · exact ⟨i, hk⟩
    · split at hk
      · exact ⟨j, hk⟩
      · exact ⟨k, hk⟩
  · rintro ⟨k, hk⟩
    by_cases h1 : k = i
    · refine ⟨j, ?_⟩
      rw [swap_getElem? arr hi hj, if_pos rfl, ← h1, hk]
    · by_cases h2 : k = j
      · refine ⟨i, ?_⟩
        rw [swap_getElem? arr hi hj]
        by_cases h3 : i = j
        · rw [if_pos h3, h3, ← h2, hk]
        · rw [if_neg h3, if_pos rfl, ← h2, hk]
      · refine ⟨k, ?_⟩
        rw [swap_getElem? arr hi hj, if_neg h2, if_neg h1, hk]

theorem randomInt_lt (g : Rng) {n : Nat} (hn : 0 < n) : (g.randomInt n).1 < n :=
  Nat.mod_lt _ hn

theorem mem_shuffleLoop : ∀ (i : Nat) (arr : List Nat) (g : Rng), i < arr.length →
    ∀ x, x ∈ (shuffleLoop i arr g).1 ↔ x ∈ arr := by
  intro i
  induction i with
  | zero => intro arr g _ x; rfl
  | succ i ih =>
    intro arr g hi x
    have hj : (g.randomInt (i + 2)).1 < arr.length :=
      lt_of_lt_of_le (randomInt_lt g (by omega)) (by omega)
    rw [shuffleLoop, ih _ _ (by rw [swap_length]; omega) x, mem_swap arr hi hj]

theorem mem_shuffle (g : Rng) (x : Nat) :
    x ∈ (shuffle [1, 2, 3, 4, 5, 6, 7, 8, 9] g).1 ↔ 1 ≤ x ∧ x ≤ 9 := by
  unfold shuffle
  rw [mem_shuffleLoop _ _ _ (by decide)]
  simp only [List.mem_cons, List.mem_singleton, List.not_mem_nil, or_false]
  omega

/-! ## The filler -/

theorem fillLoop_spec {fuel : Nat} {b : Grid} {r c : Nat} (h9 : is9x9 b = true)
    (hcf : conflictFree b = true) (hr : r < 9) (hc : c < 9) (hz : b.get r c = 0)
    (ih : ∀ (b1 : Grid) (g : Rng), is9x9 b1 = true → conflictFree b1 = true →
      zeroCount b1 + 1 = zeroCount b →
      ∃ res b2 g2, fillBoard fuel b1 g = some (res, b2, g2) ∧
        (res = true → completes b1 b2 = true) ∧
        (res = false → b2 = b1 ∧ ∀ x, completes b1 x = false)) :
    ∀ (nums : List Nat) (g : Rng), (∀ n ∈ nums, 1 ≤ n ∧ n ≤ 9) →
      ∃ res b2 g2, fillLoop (fillBoard fuel) r c nums b g = some (res, b2, g2) ∧
        (res = true → completes b b2 = true) ∧
        (res = false → b2 = b ∧ ∀ x, completes b x = true → x.get r c ∉ nums) := by
  intro nums
  induction nums with
  | nil =>
    intro g _
    exact ⟨false, b, g, rfl, by simp, fun _ => ⟨rfl, by simp⟩⟩
  | cons n rest ihr =>
    intro g hdig
    have hn := hdig n (List.mem_cons_self _ _)
    have hrest : ∀ m ∈ rest, 1 ≤ m ∧ m ≤ 9 := fun m hm => hdig m (List.mem_cons_of_mem _ hm)
    cases hv : isValid b r c n with
    | false =>
      obtain ⟨res, b2, g2, hrun, ht, hf⟩ := ihr g hrest
      refine ⟨res, b2, g2, ?_, ht, fun hres => ⟨(hf hres).1, fun x hx => ?_⟩⟩
      · simp only [fillLoop, hv]
        exact hrun
      · rw [List.mem_cons, not_or]
        exact ⟨no_completion_of_invalid hr hc (by omega) hv hx, (hf hres).2 x hx⟩
    | true =>
      obtain ⟨res1, b1, g1, hrun1, ht1, hf1⟩ := ih (b.set r c n) g (is9x9_set h9 _ _ _)
        (conflictFree_set h9 hcf hr hc hv) (zeroCount_fill h9 hr hc hz (by omega)).symm
      cases res1 with
      | true =>
        refine ⟨true, b1, g1, ?_, fun _ => ?_, by simp⟩
        · simp only [fillLoop, hv, hrun1, if_true]
        · exact ((completes_set h9 hr hc hz hn.1 hn.2 b1).1 (ht1 rfl)).1
      | false =>
        obtain ⟨hb1, hnone⟩ := hf1 rfl
        have hback : (b.set r c n).set r c 0 = b := by
          have := set_restore h9 hr hc n
          rwa [hz] at this
        obtain ⟨res, b2, g2, hrun, ht, hf⟩ := ihr g1 hrest
        refine ⟨res, b2, g2, ?_, ht, fun hres => ⟨(hf hres).1, fun x hx => ?_⟩⟩
        · simp only [fillLoop, hv, hrun1, if_true, hb1, hback]
          exact hrun
        · rw [List.mem_cons, not_or]
          refine ⟨fun hxn => ?_, (hf hres).2 x hx⟩
          have := (completes_set h9 hr hc hz hn.1 hn.2 x).2 ⟨hx, hxn⟩
          rw [hnone x] at this
          exact Bool.false_ne_true this

theorem fillBoard_spec : ∀ (fuel : Nat) (b : Grid) (g : Rng), is9x9 b = true →
    conflictFree b = true → zeroCount b < fuel →
    ∃ res b2 g2, fillBoard fuel b g = some (res, b2, g2) ∧
      (res = true → completes b b2 = true) ∧
      (res = false → b2 = b ∧ ∀ x, completes b x = false) := by
  intro fuel
  induction fuel with
  | zero => intro b _ _ _ h; omega
  | succ fuel ih =>
    intro b g h9 hcf hfuel
    cases hfe : findEmpty b with
    | none =>
      refine ⟨true, b, g, ?_, fun _ => (completes_full h9 hcf hfe b).2 rfl, by simp⟩
      simp only [fillBoard, hfe]
    | some rc =>
      obtain ⟨r, c⟩ := rc
      obtain ⟨hr, hc, hz, _⟩ := findEmpty_some hfe
      obtain ⟨res, b2, g2, hrun, ht, hf⟩ := fillLoop_spec h9 hcf hr hc hz
        (fun b1 g1 h1 h2 h3 => ih b1 g1 h1 h2 (by omega))
        (shuffle [1, 2, 3, 4, 5, 6, 7, 8, 9] g).1 (shuffle [1, 2, 3, 4, 5, 6, 7, 8, 9] g).2
        (fun n hn => (mem_shuffle g n).1 hn)
      refine ⟨res, b2, g2, ?_, ht, fun hres => ⟨(hf hres).1, fun x => ?_⟩⟩
      · simp only [fillBoard, hfe]
        exact hrun
      · cases hx : completes b x with
        | false => rfl
        | true =>
          exfalso
          apply (hf hres).2 x hx
          rw [mem_shuffle]
          exact ((completes_iff b x).1 hx).2.1 r c hr hc hz

/-! ## More fuel changes nothing -/

theorem fillLoop_mono {rec1 rec2 : Grid → Rng → Option (Bool × Grid × Rng)}
    (h : ∀ b g x, rec1 b g = some x → rec2 b g = some x) (r c : Nat) :
    ∀ (nums : List Nat) (b : Grid) (g : Rng) (x : Bool × Grid × Rng),
      fillLoop rec1 r c nums b g = some x → fillLoop rec2 r c nums b g = some x := by
  intro nums
  induction nums with
  | nil => intro b g x hx; exact hx
  | cons n rest ihr =>
    intro b g x hx
    cases hv : isValid b r c n with
    | false =>
      simp only [fillLoop, hv] at hx ⊢
      exact ihr b g x hx
    | true =>
      cases hrec : rec1 (b.set r c n) g with
      | none => simp [fillLoop, hv, hrec] at hx
      | some y =>
        obtain ⟨res, b1, g1⟩ := y
        have h2 := h _ _ _ hrec
        cases res with
        | true =>
          simp only [fillLoop, hv, hrec, h2, if_true] at hx ⊢
          exact hx
        | false =>
          simp only [fillLoop, hv, hrec, h2, if_true] at hx ⊢
          exact ihr _ _ x hx

theorem fillBoard_mono_succ : ∀ (fuel : Nat) (b : Grid) (g : Rng) (x : Bool × Grid × Rng),
    fillBoard fuel b g = some x → fillBoard (fuel + 1) b g = some x := by
  intro fuel
  induction fuel with
  | zero => intro b g x hx; simp [fillBoard] at hx
  | succ fuel ih =>
    intro b g x hx
    rw [fillBoard] at hx ⊢
    cases hfe : findEmpty b with
    | none => simpa [hfe] using hx
    | some rc =>
      obtain ⟨r, c⟩ := rc
      simp only [hfe] at hx ⊢
      exact fillLoop_mono ih r c _ _ _ x hx

theorem fillBoard_mono {fuel1 fuel2 : Nat} (hle : fuel1 ≤ fuel2) (b : Grid) (g : Rng)
    (x : Bool × Grid × Rng) (hx : fillBoard fuel1 b g = some x) :
    fillBoard fuel2 b g = some x := by
  induction hle with
  | refl => exact hx
  | step _ ih => exact fillBoard_mono_succ _ b g x ih

theorem solveLoop_mono {σ : Type} {rec1 rec2 : Grid → σ → Option (Bool × Grid × σ)}
    (h : ∀ b s x, rec1 b s = some x → rec2 b s = some x) (cb : Bool) (r c : Nat) :
    ∀ (nums : List Nat) (b : Grid) (s : σ) (x : Bool × Grid × σ),
      solveLoop rec1 cb r c nums b s = some x → solveLoop rec2 cb r c nums b s = some x := by
  intro nums
  induction nums with
  | nil => intro b s x hx; exact hx
  | cons n rest ihr =>
    intro b s x hx
    cases hv : isValid b r c n with
    | false =>
      simp only [solveLoop, hv] at hx ⊢
      exact ihr b s x hx
    | true =>
      cases hrec : rec1 (b.set r c n) s with
      | none => simp [solveLoop, hv, hrec] at hx
      | some y =>
        obtain ⟨res, b1, s1⟩ := y
        have h2 := h _ _ _ hrec
        simp only [solveLoop, hv, hrec, h2, if_true] at hx ⊢
        split at hx
        · next hc => simp only [hc, if_true]; exact hx
        · next hc => simp only [hc, if_false]; exact ihr _ _ x hx

theorem solve_mono_succ {σ : Type} (cb : Option (Grid → σ → σ)) :
    ∀ (fuel : Nat) (b : Grid) (s : σ) (x : Bool × Grid × σ),
      solve cb fuel b s = some x → solve cb (fuel + 1) b s = some x := by
  intro fuel
  induction fuel with
  | zero => intro b s x hx; simp [solve] at hx
  | succ fuel ih =>
    intro b s x hx
    cases hfe : findEmpty b with
    | none =>
      simp only [solve, hfe] at hx ⊢
      exact hx
    | some rc =>
      obtain ⟨r, c⟩ := rc
      simp only [solve, hfe] at hx ⊢
      exact solveLoop_mono ih _ r c _ _ _ x hx

theorem solve_mono {σ : Type} (cb : Option (Grid → σ → σ)) {fuel1 fuel2 : Nat}
    (hle : fuel1 ≤ fuel2) (b : Grid) (s : σ) (x : Bool × Grid × σ)
    (hx : solve cb fuel1 b s = some x) : solve cb fuel2 b s = some x := by
  induction hle with
  | refl => exact hx
  | step _ ih => exact solve_mono_succ cb _ b s x ih

/-! ## Filling the fresh board -/

theorem fresh_is9x9 : is9x9 State.fresh.board = true := by decide

theorem fresh_conflictFree : conflictFree State.fresh.board = true := by decide

theorem fresh_has_completion : completes State.fresh.board lexFirst = true := by decide

theorem fresh_fill (fuel : Nat) (g : Rng) (x : Bool × Grid × Rng)
    (hx : fillBoard fuel State.fresh.board g = some x) :
    x.1 = true ∧ completes State.fresh.board x.2.1 = true := by
  have hup := fillBoard_mono (le_max_left fuel 82) _ _ _ hx
  obtain ⟨res, b2, g2, hrun, ht, hf⟩ := fillBoard_spec (max fuel 82) State.fresh.board g
    fresh_is9x9 fresh_conflictFree
    (lt_of_le_of_lt (zeroCount_le _) (lt_of_lt_of_le (by norm_num) (le_max_right fuel 82)))
  rw [hrun] at hup
  cases hup
  cases res with
  | true => exact ⟨rfl, ht rfl⟩
  | false =>
    have := (hf rfl).2 lexFirst
    rw [fresh_has_completion] at this
    exact absurd this (by decide)

theorem fresh_fill_total (fuel : Nat) (hfuel : 81 < fuel) (g : Rng) :
    ∃ b2 g2, fillBoard fuel State.fresh.board g = some (true, b2, g2) ∧
      completes State.fresh.board b2 = true := by
  obtain ⟨res, b2, g2, hrun, _, _⟩ := fillBoard_spec fuel State.fresh.board g
    fresh_is9x9 fresh_conflictFree (lt_of_le_of_lt (zeroCount_le _) hfuel)
  obtain ⟨h1, h2⟩ := fresh_fill fuel g _ hrun
  simp only at h1 h2
  subst h1
  exact ⟨b2, g2, hrun, h2⟩

/-- What a completion of the fresh board is: a 9x9 grid of digits 1..9 that
passes the win check. -/
theorem fresh_completes_iff (sol : Grid) :
    completes State.fresh.board sol = true ↔
      is9x9 sol = true ∧ (∀ r c, r < 9 → c < 9 → 1 ≤ sol.get r c ∧ sol.get r c ≤ 9) ∧
        checkWin sol = true := by
  have hz0 : ∀ r, r < 9 → ∀ c, c < 9 → State.fresh.board.get r c = 0 := by decide
  have hz : ∀ r c, r < 9 → c < 9 → State.fresh.board.get r c = 0 :=
    fun r c hr hc => hz0 r hr c hc
  rw [completes_iff]
  constructor
  · rintro ⟨h1, h2, _, h4⟩
    exact ⟨h1, fun r c hr hc => h2 r c hr hc (hz r c hr hc), h4⟩
  · rintro ⟨h1, h2, h4⟩
    exact ⟨h1, fun r c hr hc _ => h2 r c hr hc, fun r c hr hc hne => absurd (hz r c hr hc) hne,
      h4⟩

/-! ## The carve-out loop -/

theorem conflictFree_of_consistent {sol board : Grid} (hsol : checkWin sol = true)
    (hcons : ∀ r c, r < 9 → c < 9 → board.get r c ≠ 0 → board.get r c = sol.get r c) :
    conflictFree board = true := by
  rw [conflictFree_iff]
  intro r c hr hc hnz
  rw [isValid_iff _ _ hr hc]
  intro r1 c1 hr1 hc1 hne hp
  by_cases hz : board.get r1 c1 = 0
  · rw [hz]
    exact fun h => hnz h.symm
  · rw [hcons r1 c1 hr1 hc1 hz, hcons r c hr hc hnz]
    exact ((checkWin_iff_distinct sol).1 hsol).2 r c r1 c1 hr hc hr1 hc1 hne hp

theorem completes_of_consistent {sol board : Grid}
    (hsol : completes State.fresh.board sol = true)
    (hcons : ∀ r c, r < 9 → c < 9 → board.get r c ≠ 0 → board.get r c = sol.get r c) :
    completes board sol = true := by
  obtain ⟨h1, h2, h3⟩ := (fresh_completes_iff sol).1 hsol
  rw [completes_iff]
  exact ⟨h1, fun r c hr hc _ => h2 r c hr hc, fun r c hr hc hne => (hcons r c hr hc hne).symm, h3⟩

theorem carved_full {sol : Grid} (hsol : completes State.fresh.board sol = true) :
    Carved sol sol := by
  obtain ⟨h1, h2, h3⟩ := (fresh_completes_iff sol).1 hsol
  refine ⟨h1, fun _ _ _ _ _ => rfl, fun g => ?_⟩
  apply completes_full h1 (conflictFree_of_consistent h3 (fun _ _ _ _ _ => rfl))
  rw [findEmpty_none_iff]
  intro r c hr hc
  have := (h2 r c hr hc).1
  omega

theorem count_eq_length (l : List Grid) (n : Nat) :
    l.foldl (fun s1 g => countCallback g s1) n = n + l.length := by
  induction l generalizing n with
  | nil => rfl
  | cons g l ih =>
    rw [List.foldl_cons, ih, List.length_cons]
    unfold countCallback
    omega

/-- The counter after a counting run is the number of completions of the
board, whatever fuel the run was given. -/
theorem solve_count {fuel : Nat} {b : Grid} (h9 : is9x9 b = true)
    (hcf : conflictFree b = true) {x : Bool × Grid × Nat}
    (hx : solve (some countCallback) fuel b 0 = some x) :
    ∃ L : List Grid, L.Nodup ∧ (∀ g, g ∈ L ↔ completes b g = true) ∧ x.2.2 = L.length := by
  have hup := solve_mono (some countCallback) (le_max_left fuel 82) _ _ _ hx
  obtain ⟨L, hnd, hmem, hrun⟩ := solve_spec (max fuel 82) b h9 hcf
    (lt_of_le_of_lt (zeroCount_le _) (lt_of_lt_of_le (by norm_num) (le_max_right fuel 82)))
  rw [hrun Nat countCallback 0] at hup
  cases hup
  exact ⟨L, hnd, hmem, by simp [count_eq_length]⟩

theorem eq_singleton_of_nodup {L : List Grid} {sol : Grid} (hnd : L.Nodup)
    (hmem : ∀ g, g ∈ L ↔ g = sol) : L = [sol] := by
  have hrep : L = List.replicate L.length sol :=
    List.eq_replicate_iff.2 ⟨rfl, fun g hg => (hmem g).1 hg⟩
  have hlen : L.length ≤ 1 := by
    rw [hrep] at hnd
    exact List.nodup_replicate.1 hnd
  have hpos : 0 < L.length := List.length_pos_of_mem ((hmem sol).2 rfl)
  have h1 : L.length = 1 := by omega
  rw [hrep, h1]
  rfl

theorem pickFilled_some : ∀ (fuel : Nat) (board : Grid) (r0 c0 : Nat) (g : Rng)
    (out : Nat × Nat × Rng), r0 < 9 → c0 < 9 → pickFilled fuel board r0 c0 g = some out →
    out.1 < 9 ∧ out.2.1 < 9 ∧ board.get out.1 out.2.1 ≠ 0 := by
  intro fuel
  induction fuel with
  | zero => intro board r0 c0 g out _ _ h; simp [pickFilled] at h
  | succ fuel ih =>
    intro board r0 c0 g out hr hc h
    by_cases hz : board.get r0 c0 = 0
    · simp only [pickFilled, hz, beq_self_eq_true, if_true] at h
      exact ih board _ _ _ out (randomInt_lt _ (by norm_num)) (randomInt_lt _ (by norm_num)) h
    · simp only [pickFilled, beq_iff_eq, hz, if_false] at h
      cases h
      exact ⟨hr, hc, hz⟩

theorem carveLoop_inv {sol : Grid} (hsol : completes State.fresh.board sol = true)
    (fuel : Nat) : ∀ (k : Nat) (board : Grid) (holes attempts : Nat) (g : Rng)
    (out : Grid × Rng), Carved sol board →
    carveLoop fuel k board holes attempts g = some out →
    Carved sol out.1 ∧ zeroCount out.1 ≤ zeroCount board + holes := by
  have hwin := ((fresh_completes_iff sol).1 hsol).2.2
  intro k
  induction k with
  | zero => intro board holes attempts g out _ h; simp [carveLoop] at h
  | succ k ih =>
    intro board holes attempts g out hinv h
    obtain ⟨h9, hcons, huniq⟩ := hinv
    by_cases hcond : (decide (holes > 0) && decide (attempts > 0)) = true
    · simp only [carveLoop, hcond, if_true] at h
      cases hpick : pickFilled fuel board ((g.randomInt 9).1)
          (((g.randomInt 9).2.randomInt 9).1) (((g.randomInt 9).2.randomInt 9).2) with
      | none => simp [hpick] at h
      | some cell =>
        obtain ⟨row, col, g1⟩ := cell
        obtain ⟨hr, hc, hnz⟩ := pickFilled_some _ _ _ _ _ _ (randomInt_lt _ (by norm_num))
          (randomInt_lt _ (by norm_num)) hpick
        simp only at hr hc hnz
        simp only [hpick] at h
        have h9' : is9x9 (board.set row col 0) = true := is9x9_set h9 _ _ _
        have hcons' : ∀ r c, r < 9 → c < 9 → (board.set row col 0).get r c ≠ 0 →
            (board.set row col 0).get r c = sol.get r c := by
          intro r c hr1 hc1 hne
          rw [get_set h9 hr hc] at hne ⊢
          split at hne
          · exact absurd rfl hne
          · next hcell => rw [if_neg hcell]; exact hcons r c hr1 hc1 hne
        cases hsolve : solve (some countCallback) fuel (board.set row col 0) 0 with
        | none => simp [hsolve] at h
        | some x =>
          obtain ⟨res, b2, solutions⟩ := x
          simp only [hsolve] at h
          obtain ⟨L, hnd, hmem, hlen⟩ :=
            solve_count h9' (conflictFree_of_consistent hwin hcons') hsolve
          simp only at hlen
          by_cases hone : solutions = 1
          · simp only [hone, bne_self_eq_false, Bool.false_eq_true, if_false] at h
            have hsolL : sol ∈ L := (hmem sol).2 (completes_of_consistent hsol hcons')
            have hL : L = [sol] := by
              obtain ⟨a, ha⟩ := List.length_eq_one.1 (hlen.symm.trans hone)
              rw [ha] at hsolL ⊢
              rw [List.mem_singleton.1 hsolL]
            have hinv' : Carved sol (board.set row col 0) := by
              refine ⟨h9', hcons', fun g => ?_⟩
              rw [← hmem g, hL, List.mem_singleton]
            obtain ⟨r1, r2⟩ := ih _ _ _ _ out hinv' h
            refine ⟨r1, ?_⟩
            have hz := zeroCount_clear h9 hr hc hnz
            have hpos : 0 < holes := by
              simp only [Bool.and_eq_true, decide_eq_true_eq] at hcond
              exact hcond.1
            omega
          · have hne : (solutions != 1) = true := by simp [hone]
            simp only [hne, if_true] at h
            rw [set_restore h9 hr hc 0] at h
            obtain ⟨r1, r2⟩ := ih _ _ _ _ out ⟨h9, hcons, huniq⟩ h
            exact ⟨r1, r2⟩
    · simp only [carveLoop, hcond, if_false] at h
      cases h
      exact ⟨⟨h9, hcons, huniq⟩, by simp⟩

/-! ## Generation on a fresh instance -/

theorem generateBoard_spec {fuel : Nat} {d : Option String} {g : Rng}
    {out : Grid × State × Rng} (h : generateBoard fuel State.fresh d g = some out) :
    ∃ sol, out.2.1.solution = some sol ∧ out.2.1.board = out.1 ∧
      completes State.fresh.board sol = true ∧ Carved sol out.1 ∧
      zeroCount out.1 ≤ holesFor d := by
  unfold generateBoard at h
  cases hfill : fillBoard fuel State.fresh.board g with
  | none => simp [hfill] at h
  | some x =>
    obtain ⟨res, b, g1⟩ := x
    have hsol := (fresh_fill fuel g _ hfill).2
    simp only at hsol
    simp only [hfill] at h
    cases hcarve : carveLoop fuel fuel b (holesFor d) 5 g1 with
    | none => simp [hcarve] at h
    | some y =>
      obtain ⟨board1, g2⟩ := y
      simp only [hcarve, Option.some.injEq] at h
      subst h
      obtain ⟨h1, h2⟩ := carveLoop_inv hsol fuel fuel b _ _ g1 _ (carved_full hsol) hcarve
      refine ⟨b, rfl, rfl, hsol, h1, ?_⟩
      have hz : zeroCount b = 0 := by
        rw [zeroCount_eq_zero_iff]
        intro r c hr hc
        have := (((fresh_completes_iff b).1 hsol).2.1 r c hr hc).1
        omega
      simp only at h2 ⊢
      omega

theorem example_run :
    ∃ st g1, generateBoard 100 State.fresh none exampleRng = some (exampleBoard, st, g1) ∧
      st.solution = some lexFirst := by
  have h : (generateBoard 100 State.fresh none exampleRng).map
      (fun x => (x.1, x.2.1.solution)) = some (exampleBoard, some lexFirst) := by decide!
  cases hgen : generateBoard 100 State.fresh none exampleRng with
  | none => simp [hgen] at h
  | some x =>
    obtain ⟨b, st, g1⟩ := x
    simp only [hgen, Option.map_some', Option.some.injEq, Prod.mk.injEq] at h
    exact ⟨st, g1, by rw [h.1], h.2⟩

/-! ## The claims -/

/-- C1: `isValid` is the Sudoku placement rule.  For `row` and `col` in 0..8 and
any `num`, it returns true exactly when no cell other than `(row, col)` in the
same row, the same column or the same 3x3 box holds `num`; and what the cell
`(row, col)` itself holds never changes the result. -/
theorem isValid_placement_rule (board : Grid) (row col num : Nat) (hr : row < 9)
    (hc : col < 9) :
    (isValid board row col num = true ↔
      ∀ r, r < 9 → ∀ c, c < 9 → (r ≠ row ∨ c ≠ col) →
        (r = row ∨ c = col ∨ (r / 3 = row / 3 ∧ c / 3 = col / 3)) → board.get r c ≠ num) ∧
    ∀ v, isValid (board.set row col v) row col num = isValid board row col num := by
  refine ⟨?_, fun v => isValid_set_self board row col num v⟩
  rw [isValid_iff board num hr hc]
  exact ⟨fun h r hr1 c hc1 => h r c hr1 hc1, fun h r c hr1 hc1 => h r hr1 c hc1⟩

/-- Witness of C1 on the grid `lexFirst` at cell (4, 4): the digit 9 held there
is accepted, also after the cell is overwritten. -/
theorem isValid_placement_rule_witness :
    4 < 9 ∧ isValid (lexFirst.set 4 4 0) 4 4 9 = isValid lexFirst 4 4 9 :=
  ⟨by decide, (isValid_placement_rule lexFirst 4 4 9 (by decide) (by decide)).2 0⟩

/-- C2: `checkWin` is full and conflict-free.  It returns true exactly when
every cell is non-zero and `isValid` accepts every cell's own value; so it is
false on a grid with a zero, and false on a grid in which two distinct cells of
one row, one column or one box hold the same value. -/
theorem checkWin_full_conflict_free (grid : Grid) :
    (checkWin grid = true ↔
      (∀ r, r < 9 → ∀ c, c < 9 → grid.get r c ≠ 0) ∧
      (∀ r, r < 9 → ∀ c, c < 9 → isValid grid r c (grid.get r c) = true)) ∧
    (∀ r, r < 9 → ∀ c, c < 9 → grid.get r c = 0 → checkWin grid = false) ∧
    (∀ r, r < 9 → ∀ c, c < 9 → ∀ r1, r1 < 9 → ∀ c1, c1 < 9 → (r1 ≠ r ∨ c1 ≠ c) →
      (r1 = r ∨ c1 = c ∨ (r1 / 3 = r / 3 ∧ c1 / 3 = c / 3)) →
      grid.get r1 c1 = grid.get r c → checkWin grid = false) := by
  refine ⟨?_, ?_, ?_⟩
  · rw [checkWin_iff]
    exact ⟨fun h => ⟨fun r hr c hc => h.1 r c hr hc, fun r hr c hc => h.2 r c hr hc⟩,
      fun h => ⟨fun r c hr hc => h.1 r hr c hc, fun r c hr hc => h.2 r hr c hc⟩⟩
  · intro r hr c hc hz
    cases hw : checkWin grid with
    | false => rfl
    | true => exact absurd hz (((checkWin_iff grid).1 hw).1 r c hr hc)
  · intro r hr c hc r1 hr1 c1 hc1 hne hp heq
    cases hw : checkWin grid with
    | false => rfl
    | true =>
      exact absurd heq (((checkWin_iff_distinct grid).1 hw).2 r c r1 c1 hr hc hr1 hc1 hne hp)

/-- Witness of C2: `lexFirst` with the 2 of cell (0, 1) overwritten by a 1, which
cell (0, 0) of the same row holds too, fails the win check. -/
theorem checkWin_full_conflict_free_witness :
    (lexFirst.set 0 1 1).get 0 1 = (lexFirst.set 0 1 1).get 0 0 ∧
      checkWin (lexFirst.set 0 1 1) = false :=
  ⟨by decide, (checkWin_full_conflict_free (lexFirst.set 0 1 1)).2.2 0 (by decide) 0 (by decide)
    0 (by decide) 1 (by decide) (by decide) (by decide) (by decide)⟩

/-- C3: on a grid whose cells all lie in 0..9, `checkWin` returns true exactly
when every row, every column and every 3x3 box holds each of the digits 1..9
exactly once. -/
theorem checkWin_iff_each_digit_once (grid : Grid)
    (hrange : ∀ r, r < 9 → ∀ c, c < 9 → grid.get r c ≤ 9) :
    checkWin grid = true ↔
      ∀ k, k < 9 → ∀ d, 1 ≤ d → d ≤ 9 →
        (rowCells grid k).count d = 1 ∧ (colCells grid k).count d = 1 ∧
          (boxCells grid k).count d = 1 :=
  ⟨fun h => latin_of_checkWin (fun r c hr hc => hrange r hr c hc) h, checkWin_of_latin⟩

/-- Witness of C3 on the grid `lexFirst`, whose cells lie in 1..9. -/
theorem checkWin_iff_each_digit_once_witness :
    (∀ r, r < 9 → ∀ c, c < 9 → lexFirst.get r c ≤ 9) ∧
    (checkWin lexFirst = true ↔
      ∀ k, k < 9 → ∀ d, 1 ≤ d → d ≤ 9 →
        (rowCells lexFirst k).count d = 1 ∧ (colCells lexFirst k).count d = 1 ∧
          (boxCells lexFirst k).count d = 1) :=
  ⟨by decide, checkWin_iff_each_digit_once lexFirst (by decide)⟩

/-- C4: `findEmpty` returns the first empty cell in row-major order.  It returns
`null` exactly when no cell is 0; otherwise the cell it returns is empty and
every cell before it, in an earlier row or earlier in the same row, is
non-zero. -/
theorem findEmpty_first_empty (grid : Grid) :
    (findEmpty grid = none ↔ ∀ r, r < 9 → ∀ c, c < 9 → grid.get r c ≠ 0) ∧
    (∀ r c, findEmpty grid = some (r, c) →
      r < 9 ∧ c < 9 ∧ grid.get r c = 0 ∧
        ∀ r1, r1 < 9 → ∀ c1, c1 < 9 → (r1 < r ∨ (r1 = r ∧ c1 < c)) → grid.get r1 c1 ≠ 0) := by
  refine ⟨?_, fun r c h => ?_⟩
  · rw [findEmpty_none_iff]
    exact ⟨fun h r hr c hc => h r c hr hc, fun h r c hr hc => h r hr c hc⟩
  · obtain ⟨h1, h2, h3, h4⟩ := findEmpty_some h
    exact ⟨h1, h2, h3, fun r1 hr1 c1 hc1 hlt => h4 r1 c1 hr1 hc1 hlt⟩

/-- Witness of C4 on `exampleBoard`, whose first empty cell is (0, 0). -/
theorem findEmpty_first_empty_witness :
    findEmpty exampleBoard = some (0, 0) ∧ exampleBoard.get 0 0 = 0 :=
  ⟨by decide, ((findEmpty_first_empty exampleBoard).2 0 0 (by decide)).2.2.1⟩

/-- C5: counting mode counts the completions exactly.  On a 9x9 board whose
filled cells are mutually conflict-free, with `S` the set of grids that complete
the board, a run of `solve` with a callback returns for every fuel above 81 and
has called the callback `S.card` times: the counter of `generateBoard` ends at
`S.card`, and any callback `h` has been applied `S.card` times.  The run also
leaves the board as it was. -/
theorem solve_counts_completions (board : Grid) (h9 : is9x9 board = true)
    (hcf : conflictFree board = true) :
    ∃ S : Finset Grid, (∀ g, g ∈ S ↔ completes board g = true) ∧
      ∀ fuel, 81 < fuel →
        solve (some countCallback) fuel board 0
          = some ((findEmpty board).isNone, board, S.card) ∧
        ∀ (σ : Type) (h : σ → σ) (s : σ),
          solve (some (fun _ => h)) fuel board s
            = some ((findEmpty board).isNone, board, h^[S.card] s) := by
  obtain ⟨L, hnd, hmem, _⟩ := solve_spec 82 board h9 hcf
    (lt_of_le_of_lt (zeroCount_le _) (by norm_num))
  refine ⟨L.toFinset, fun g => by rw [List.mem_toFinset, hmem g], fun fuel hfuel => ?_⟩
  obtain ⟨L2, hnd2, hmem2, hrun2⟩ := solve_spec fuel board h9 hcf
    (lt_of_le_of_lt (zeroCount_le _) hfuel)
  have hcard : L.toFinset.card = L2.length := by
    rw [← List.toFinset_card_of_nodup hnd2]
    congr 1
    ext g
    rw [List.mem_toFinset, List.mem_toFinset, hmem g, hmem2 g]
  refine ⟨?_, fun σ h s => ?_⟩
  · rw [hrun2 Nat countCallback 0, count_eq_length, hcard, Nat.zero_add]
  · rw [hrun2 σ (fun _ => h) s, hcard, ← callbackOn_blind]
    rfl

/-- Witness of C5 on `twoWayBoard`, a conflict-free 9x9 board. -/
theorem solve_counts_completions_witness :
    is9x9 twoWayBoard = true ∧ conflictFree twoWayBoard = true ∧
    ∃ S : Finset Grid, (∀ g, g ∈ S ↔ completes twoWayBoard g = true) ∧
      ∀ fuel, 81 < fuel →
        solve (some countCallback) fuel twoWayBoard 0
          = some ((findEmpty twoWayBoard).isNone, twoWayBoard, S.card) ∧
        ∀ (σ : Type) (h : σ → σ) (s : σ),
          solve (some (fun _ => h)) fuel twoWayBoard s
            = some ((findEmpty twoWayBoard).isNone, twoWayBoard, h^[S.card] s) :=
  ⟨by decide, by decide, solve_counts_completions twoWayBoard (by decide) (by decide)⟩

/-- C6: uniqueness of generated puzzles.  Whenever `generateBoard` returns on a
fresh instance, `this.solution` is set, and a counting run of `solve` on the
returned board (for every fuel above 81) ends with the counter at exactly 1 and
the board untouched; the callback is called once, and the board stands at the
stored solution when it is called. -/
theorem generated_puzzle_unique (fuel : Nat) (difficulty : Option String) (g : Rng)
    (board : Grid) (st : State) (g1 : Rng)
    (h : generateBoard fuel State.fresh difficulty g = some (board, st, g1)) :
    ∃ sol, st.solution = some sol ∧
      ∀ fuel2, 81 < fuel2 →
        solve (some countCallback) fuel2 board 0
          = some ((findEmpty board).isNone, board, 1) ∧
        ∀ (σ : Type) (f : Grid → σ → σ) (s : σ),
          solve (some f) fuel2 board s = some ((findEmpty board).isNone, board, f sol s) := by
  obtain ⟨sol, h1, _, h3, ⟨h9, hcons, huniq⟩, _⟩ := generateBoard_spec h
  refine ⟨sol, h1, fun fuel2 hfuel => ?_⟩
  have hwin := ((fresh_completes_iff sol).1 h3).2.2
  obtain ⟨L, hnd, hmem, hrun⟩ := solve_spec fuel2 board h9
    (conflictFree_of_consistent hwin hcons) (lt_of_le_of_lt (zeroCount_le _) hfuel)
  have hL : L = [sol] := eq_singleton_of_nodup hnd (fun x => by rw [hmem x]; exact huniq x)
  subst hL
  exact ⟨hrun Nat countCallback 0, fun σ f s => hrun σ f s⟩

/-- Witness of C6 on the run `exampleRng`, which returns `exampleBoard`. -/
theorem generated_puzzle_unique_witness :
    solve (some countCallback) 82 exampleBoard 0
      = some ((findEmpty exampleBoard).isNone, exampleBoard, 1) := by
  obtain ⟨st, g1, hrun, _⟩ := example_run
  obtain ⟨sol, _, h2⟩ := generated_puzzle_unique 100 none exampleRng exampleBoard st g1 hrun
  exact (h2 82 (by norm_num)).1

/-- C7: completeness of the generated solution.  Whenever `generateBoard`
returns on a fresh instance, `this.solution` is a 9x9 grid in which every row,
every column and every 3x3 box holds each digit 1..9 exactly once; it passes
`checkWin`, and `isValid` accepts every cell's own value. -/
theorem generated_solution_complete (fuel : Nat) (difficulty : Option String) (g : Rng)
    (board : Grid) (st : State) (g1 : Rng)
    (h : generateBoard fuel State.fresh difficulty g = some (board, st, g1)) :
    ∃ sol, st.solution = some sol ∧ is9x9 sol = true ∧
      (∀ k, k < 9 → ∀ d, 1 ≤ d → d ≤ 9 →
        (rowCells sol k).count d = 1 ∧ (colCells sol k).count d = 1 ∧
          (boxCells sol k).count d = 1) ∧
      checkWin sol = true ∧
      ∀ r, r < 9 → ∀ c, c < 9 → isValid sol r c (sol.get r c) = true := by
  obtain ⟨sol, h1, _, h3, _, _⟩ := generateBoard_spec h
  obtain ⟨a1, a2, a3⟩ := (fresh_completes_iff sol).1 h3
  exact ⟨sol, h1, a1, latin_of_checkWin (fun r c hr hc => (a2 r c hr hc).2) a3, a3,
    fun r hr c hc => ((checkWin_iff sol).1 a3).2 r c hr hc⟩

/-- Witness of C7 on the run `exampleRng`, whose stored solution is `lexFirst`. -/
theorem generated_solution_complete_witness : checkWin lexFirst = true := by
  obtain ⟨st, g1, hrun, hsol⟩ := example_run
  obtain ⟨sol, h1, _, _, h4, _⟩ :=
    generated_solution_complete 100 none exampleRng exampleBoard st g1 hrun
  rw [hsol] at h1
  cases h1
  exact h4

/-- C10: a fresh fill never fails.  On the all-zero board, for every random
source, `fillBoard` returns true for every fuel above 81, leaving a completion
of the empty board, and with less fuel it never returns false; hence the grid
`generateBoard` stores as the solution on a fresh instance has no empty cell. -/
theorem fresh_fill_succeeds :
    (∀ fuel, 81 < fuel → ∀ g : Rng, ∃ b2 g2,
      fillBoard fuel State.fresh.board g = some (true, b2, g2) ∧
        completes State.fresh.board b2 = true) ∧
    (∀ fuel (g : Rng) x, fillBoard fuel State.fresh.board g = some x → x.1 = true) ∧
    (∀ fuel difficulty (g : Rng) out,
      generateBoard fuel State.fresh difficulty g = some out →
        ∃ sol, out.2.1.solution = some sol ∧ ∀ r, r < 9 → ∀ c, c < 9 → sol.get r c ≠ 0) := by
  refine ⟨fun fuel hfuel g => fresh_fill_total fuel hfuel g,
    fun fuel g x hx => (fresh_fill fuel g x hx).1, fun fuel d g out h => ?_⟩
  obtain ⟨sol, h1, _, h3, _, _⟩ := generateBoard_spec h
  refine ⟨sol, h1, fun r hr c hc => ?_⟩
  have := (((fresh_completes_iff sol).1 h3).2.1 r c hr hc).1
  omega

/-- Witness of C10 on the run `exampleRng`: the stored solution `lexFirst` has
no empty cell at (4, 4). -/
theorem fresh_fill_succeeds_witness : lexFirst.get 4 4 ≠ 0 := by
  obtain ⟨st, g1, hrun, hsol⟩ := example_run
  obtain ⟨sol, h1, h2⟩ := fresh_fill_succeeds.2.2 100 none exampleRng _ hrun
  rw [hsol] at h1
  cases h1
  exact h2 4 (by decide) 4 (by decide)

/-! ## The solver on any 9x9 board -/

theorem solveLoop_frame {σ : Type} (cb : Option (Grid → σ → σ)) {fuel : Nat} {b : Grid}
    {r c : Nat} (h9 : is9x9 b = true) (hr : r < 9) (hc : c < 9) (hz : b.get r c = 0)
    (ih : ∀ (b1 : Grid) (s : σ), is9x9 b1 = true → zeroCount b1 + 1 = zeroCount b →
      ∃ res b2 s2, solve cb fuel b1 s = some (res, b2, s2) ∧ (res = false → b2 = b1) ∧
        (cb.isSome = true → b2 = b1)) :
    ∀ (nums : List Nat) (s : σ), (∀ n ∈ nums, n ≠ 0) →
      ∃ res b2 s2, solveLoop (solve cb fuel) cb.isSome r c nums b s = some (res, b2, s2) ∧
        (res = false → b2 = b) ∧ (cb.isSome = true → b2 = b ∧ res = false) := by
  intro nums
  induction nums with
  | nil =>
    intro s _
    exact ⟨false, b, s, rfl, fun _ => rfl, fun _ => ⟨rfl, rfl⟩⟩
  | cons n rest ihr =>
    intro s hnz
    have hn := hnz n (List.mem_cons_self _ _)
    have hrest : ∀ m ∈ rest, m ≠ 0 := fun m hm => hnz m (List.mem_cons_of_mem _ hm)
    have hback : (b.set r c n).set r c 0 = b := by
      have := set_restore h9 hr hc n
      rwa [hz] at this
    cases hv : isValid b r c n with
    | false =>
      obtain ⟨res, b2, s2, hrun, h1, h2⟩ := ihr s hrest
      refine ⟨res, b2, s2, ?_, h1, h2⟩
      simp only [solveLoop, hv]
      exact hrun
    | true =>
      obtain ⟨res1, b1, s1, hrun1, hf1, hc1⟩ := ih (b.set r c n) s (is9x9_set h9 _ _ _)
        (zeroCount_fill h9 hr hc hz hn).symm
      by_cases hstop : (res1 && !cb.isSome) = true
      · refine ⟨true, b1, s1, ?_, by simp, fun hcb => ?_⟩
        · simp only [solveLoop, hv, hrun1, hstop, if_true]
        · rw [hcb] at hstop
          simp at hstop
      · have hb1 : b1 = b.set r c n := by
          cases hcb : cb.isSome with
          | true => exact hc1 hcb
          | false =>
            rw [hcb] at hstop
            cases res1 with
            | true => simp at hstop
            | false => exact hf1 rfl
        obtain ⟨res, b2, s2, hrun, h1, h2⟩ := ihr s1 hrest
        refine ⟨res, b2, s2, ?_, h1, h2⟩
        simp only [solveLoop, hv, hrun1, hstop, if_true, hb1, hback]
        exact hrun

theorem solve_frame {σ : Type} (cb : Option (Grid → σ → σ)) :
    ∀ (fuel : Nat) (b : Grid) (s : σ), is9x9 b = true → zeroCount b < fuel →
      ∃ res b2 s2, solve cb fuel b s = some (res, b2, s2) ∧ (res = false → b2 = b) ∧
        (cb.isSome = true → b2 = b ∧ res = (findEmpty b).isNone) := by
  intro fuel
  induction fuel with
  | zero => intro b _ _ h; omega
  | succ fuel ih =>
    intro b s h9 hfuel
    cases hfe : findEmpty b with
    | none =>
      cases cb with
      | none =>
        exact ⟨true, b, s, by simp only [solve, hfe], by simp, by simp⟩
      | some f =>
        exact ⟨true, b, f b s, by simp only [solve, hfe], by simp, fun _ => ⟨rfl, rfl⟩⟩
    | some rc =>
      obtain ⟨r, c⟩ := rc
      obtain ⟨hr, hc, hz, _⟩ := findEmpty_some hfe
      obtain ⟨res, b2, s2, hrun, h1, h2⟩ := solveLoop_frame cb h9 hr hc hz
        (fun b1 s1 hb1 hcount => by
          obtain ⟨res, b2, s2, e1, e2, e3⟩ := ih b1 s1 hb1 (by omega)
          exact ⟨res, b2, s2, e1, e2, fun hcb => (e3 hcb).1⟩)
        [1, 2, 3, 4, 5, 6, 7, 8, 9] s (by decide)
      refine ⟨res, b2, s2, ?_, h1, fun hcb => ⟨(h2 hcb).1, ?_⟩⟩
      · simp only [solve, hfe]
        exact hrun
      · rw [(h2 hcb).2]
        rfl

/-! ## The solver without a callback -/

theorem solveLoop_none_spec {σ : Type} {fuel : Nat} {b : Grid} {r c : Nat}
    (h9 : is9x9 b = true) (hcf : conflictFree b = true) (hr : r < 9) (hc : c < 9)
    (hz : b.get r c = 0)
    (ih : ∀ (b1 : Grid) (s : σ), is9x9 b1 = true → conflictFree b1 = true →
      zeroCount b1 + 1 = zeroCount b →
      ∃ res b2, solve (none : Option (Grid → σ → σ)) fuel b1 s = some (res, b2, s) ∧
        (res = true → completes b1 b2 = true) ∧
        (res = false → b2 = b1 ∧ ∀ x, completes b1 x = false)) :
    ∀ (nums : List Nat) (s : σ), (∀ n ∈ nums, 1 ≤ n ∧ n ≤ 9) →
      ∃ res b2, solveLoop (solve (none : Option (Grid → σ → σ)) fuel) false r c nums b s
          = some (res, b2, s) ∧
        (res = true → completes b b2 = true) ∧
        (res = false → b2 = b ∧ ∀ x, completes b x = true → x.get r c ∉ nums) := by
  intro nums
  induction nums with
  | nil =>
    intro s _
    exact ⟨false, b, rfl, by simp, fun _ => ⟨rfl, by simp⟩⟩
  | cons n rest ihr =>
    intro s hdig
    have hn := hdig n (List.mem_cons_self _ _)
    have hrest : ∀ m ∈ rest, 1 ≤ m ∧ m ≤ 9 := fun m hm => hdig m (List.mem_cons_of_mem _ hm)
    cases hv : isValid b r c n with
    | false =>
      obtain ⟨res, b2, hrun, ht, hf⟩ := ihr s hrest
      refine ⟨res, b2, ?_, ht, fun hres => ⟨(hf hres).1, fun x hx => ?_⟩⟩
      · simp only [solveLoop, hv]
        exact hrun
      · rw [List.mem_cons, not_or]
        exact ⟨no_completion_of_invalid hr hc (by omega) hv hx, (hf hres).2 x hx⟩
    | true =>
      obtain ⟨res1, b1, hrun1, ht1, hf1⟩ := ih (b.set r c n) s (is9x9_set h9 _ _ _)
        (conflictFree_set h9 hcf hr hc hv) (zeroCount_fill h9 hr hc hz (by omega)).symm
      cases res1 with
      | true =>
        refine ⟨true, b1, ?_, fun _ => ?_, by simp⟩
        · simp [solveLoop, hv, hrun1]
        · exact ((completes_set h9 hr hc hz hn.1 hn.2 b1).1 (ht1 rfl)).1
      | false =>
        obtain ⟨hb1, hnone⟩ := hf1 rfl
        have hback : (b.set r c n).set r c 0 = b := by
          have := set_restore h9 hr hc n
          rwa [hz] at this
        obtain ⟨res, b2, hrun, ht, hf⟩ := ihr s hrest
        refine ⟨res, b2, ?_, ht, fun hres => ⟨(hf hres).1, fun x hx => ?_⟩⟩
        · simp only [solveLoop, hv, hrun1, if_true, hb1, hback, Bool.false_and,
            Bool.false_eq_true, if_false]
          exact hrun
        · rw [List.mem_cons, not_or]
          refine ⟨fun hxn => ?_, (hf hres).2 x hx⟩
          have := (completes_set h9 hr hc hz hn.1 hn.2 x).2 ⟨hx, hxn⟩
          rw [hnone x] at this
          exact Bool.false_ne_true this

theorem solve_none_spec {σ : Type} : ∀ (fuel : Nat) (b : Grid) (s : σ), is9x9 b = true →
    conflictFree b = true → zeroCount b < fuel →
    ∃ res b2, solve (none : Option (Grid → σ → σ)) fuel b s = some (res, b2, s) ∧
      (res = true → completes b b2 = true) ∧
      (res = false → b2 = b ∧ ∀ x, completes b x = false) := by
  intro fuel
  induction fuel with
  | zero => intro b _ _ _ h; omega
  | succ fuel ih =>
    intro b s h9 hcf hfuel
    cases hfe : findEmpty b with
    | none =>
      refine ⟨true, b, ?_, fun _ => (completes_full h9 hcf hfe b).2 rfl, by simp⟩
      simp only [solve, hfe]
    | some rc =>
      obtain ⟨r, c⟩ := rc
      obtain ⟨hr, hc, hz, _⟩ := findEmpty_some hfe
      obtain ⟨res, b2, hrun, ht, hf⟩ := solveLoop_none_spec h9 hcf hr hc hz
        (fun b1 s1 h1 h2 h3 => ih b1 s1 h1 h2 (by omega))
        [1, 2, 3, 4, 5, 6, 7, 8, 9] s (by decide)
      refine ⟨res, b2, ?_, ht, fun hres => ⟨(hf hres).1, fun x => ?_⟩⟩
      · simp only [solve, hfe]
        exact hrun
      · cases hx : completes b x with
        | false => rfl
        | true =>
          exfalso
          apply (hf hres).2 x hx
          have := ((completes_iff b x).1 hx).2.1 r c hr hc hz
          generalize x.get r c = v at this
          obtain ⟨h1, h2⟩ := this
          interval_cases v <;> simp

/-! ## The filler under the identity shuffle -/

theorem swap_self (arr : List Nat) {i : Nat} (hi : i < arr.length) : swap arr i i = arr := by
  apply List.ext_getElem?
  intro k
  rw [swap_getElem? arr hi hi]
  by_cases hk : k = i
  · rw [if_pos hk, hk]
  · rw [if_neg hk, if_neg hk]

theorem shuffleLoop_id : ∀ (i : Nat) (arr : List Nat) (g : Rng), i < arr.length →
    (∀ m, m < i → g.draws (g.pos + m) % (i - m + 1) = i - m) →
    shuffleLoop i arr g = (arr, { draws := g.draws, pos := g.pos + i }) := by
  intro i
  induction i with
  | zero => intro arr g _ _; rfl
  | succ i ih =>
    intro arr g hi hdraw
    have h0 : (g.randomInt (i + 2)).1 = i + 1 := by
      have := hdraw 0 (by omega)
      simpa [Rng.randomInt] using this
    rw [shuffleLoop, h0, swap_self arr hi]
    have hnext := ih arr (g.randomInt (i + 2)).2 (by omega) (fun m hm => by
      have := hdraw (m + 1) (by omega)
      have e1 : i + 1 - (m + 1) = i - m := by omega
      rw [e1] at this
      simpa [Rng.randomInt, Nat.add_assoc, Nat.add_comm 1 m] using this)
    rw [hnext]
    simp [Rng.randomInt, Nat.add_assoc, Nat.add_comm 1 i]

theorem shuffle_id {g : Rng} (hg : IdShuffle g) :
    shuffle [1, 2, 3, 4, 5, 6, 7, 8, 9] g
        = ([1, 2, 3, 4, 5, 6, 7, 8, 9], { draws := g.draws, pos := g.pos + 8 }) ∧
      IdShuffle { draws := g.draws, pos := g.pos + 8 } := by
  constructor
  · unfold shuffle
    apply shuffleLoop_id 8 _ g (by decide)
    intro m hm
    have := hg m
    have e1 : m % 8 = m := Nat.mod_eq_of_lt hm
    rw [e1] at this
    have e2 : 8 - m + 1 = 9 - m := by omega
    rw [e2]
    exact this
  · intro k
    have := hg (8 + k)
    have e1 : (8 + k) % 8 = k % 8 := by omega
    rw [e1] at this
    simpa [Nat.add_assoc] using this

theorem idRng_idShuffle : IdShuffle idRng := by
  intro k
  simp only [idRng, Nat.zero_add]
  have h1 : k % 8 < 8 := Nat.mod_lt _ (by norm_num)
  apply Nat.mod_eq_of_lt
  omega

theorem fillLoop_eq_solveLoop {σ : Type} {rec1 : Grid → Rng → Option (Bool × Grid × Rng)}
    {rec2 : Grid → σ → Option (Bool × Grid × σ)} (s : σ)
    (h : ∀ b g, IdShuffle g → (rec2 b s = none ∧ rec1 b g = none) ∨
      ∃ res b2 g2, IdShuffle g2 ∧ rec1 b g = some (res, b2, g2) ∧ rec2 b s = some (res, b2, s))
    (r c : Nat) :
    ∀ (nums : List Nat) (b : Grid) (g : Rng), IdShuffle g →
      (solveLoop rec2 false r c nums b s = none ∧ fillLoop rec1 r c nums b g = none) ∨
      ∃ res b2 g2, IdShuffle g2 ∧ fillLoop rec1 r c nums b g = some (res, b2, g2) ∧
        solveLoop rec2 false r c nums b s = some (res, b2, s) := by
  intro nums
  induction nums with
  | nil =>
    intro b g hg
    exact Or.inr ⟨false, b, g, hg, rfl, rfl⟩
  | cons n rest ihr =>
    intro b g hg
    cases hv : isValid b r c n with
    | false =>
      simp only [fillLoop, solveLoop, hv]
      exact ihr b g hg
    | true =>
      rcases h (b.set r c n) g hg with ⟨e2, e1⟩ | ⟨res, b2, g2, hg2, e1, e2⟩
      · left
        simp [fillLoop, solveLoop, hv, e1, e2]
      · cases res with
        | true =>
          right
          exact ⟨true, b2, g2, hg2, by simp [fillLoop, hv, e1], by simp [solveLoop, hv, e2]⟩
        | false =>
          simp only [fillLoop, solveLoop, hv, e1, e2, if_true, Bool.false_and,
            Bool.false_eq_true, if_false]
          exact ihr _ g2 hg2

theorem fillBoard_eq_solve {σ : Type} (s : σ) : ∀ (fuel : Nat) (b : Grid) (g : Rng),
    IdShuffle g →
    (solve (none : Option (Grid → σ → σ)) fuel b s = none ∧ fillBoard fuel b g = none) ∨
    ∃ res b2 g2, IdShuffle g2 ∧ fillBoard fuel b g = some (res, b2, g2) ∧
      solve (none : Option (Grid → σ → σ)) fuel b s = some (res, b2, s) := by
  intro fuel
  induction fuel with
  | zero => intro b g _; exact Or.inl ⟨rfl, rfl⟩
  | succ fuel ih =>
    intro b g hg
    cases hfe : findEmpty b with
    | none =>
      right
      exact ⟨true, b, g, hg, by simp only [fillBoard, hfe], by simp only [solve, hfe]⟩
    | some rc =>
      obtain ⟨r, c⟩ := rc
      obtain ⟨hsh, hg1⟩ := shuffle_id hg
      simp only [fillBoard, solve, hfe, hsh, Option.isSome_none]
      exact fillLoop_eq_solveLoop s ih r c _ b _ hg1

/-! ## Generation on an instance in any state -/

theorem fill_of_consistent {fuel : Nat} {b sol0 : Grid} {g : Rng} {x : Bool × Grid × Rng}
    (h9 : is9x9 b = true) (hsol0 : completes State.fresh.board sol0 = true)
    (hcons : ∀ r c, r < 9 → c < 9 → b.get r c ≠ 0 → b.get r c = sol0.get r c)
    (hx : fillBoard fuel b g = some x) :
    x.1 = true ∧ completes b x.2.1 = true ∧ completes State.fresh.board x.2.1 = true := by
  obtain ⟨_, hdig, hwin⟩ := (fresh_completes_iff sol0).1 hsol0
  have hup := fillBoard_mono (le_max_left fuel 82) _ _ _ hx
  obtain ⟨res, b2, g2, hrun, ht, hf⟩ := fillBoard_spec (max fuel 82) b g h9
    (conflictFree_of_consistent hwin hcons)
    (lt_of_le_of_lt (zeroCount_le _) (lt_of_lt_of_le (by norm_num) (le_max_right fuel 82)))
  rw [hrun] at hup
  cases hup
  cases res with
  | false =>
    have := (hf rfl).2 sol0
    rw [completes_of_consistent hsol0 hcons] at this
    exact absurd this (by decide)
  | true =>
    have hc := ht rfl
    refine ⟨rfl, hc, ?_⟩
    obtain ⟨a1, a2, a3, a4⟩ := (completes_iff b b2).1 hc
    rw [fresh_completes_iff]
    refine ⟨a1, fun r c hr hc1 => ?_, a4⟩
    by_cases hz : b.get r c = 0
    · exact a2 r c hr hc1 hz
    · rw [a3 r c hr hc1 hz, hcons r c hr hc1 hz]
      exact hdig r c hr hc1

theorem generateBoard_inv {fuel : Nat} {st : State} {d : Option String} {g : Rng}
    {out : Grid × State × Rng} {sol0 : Grid} (h9 : is9x9 st.board = true)
    (hsol0 : completes State.fresh.board sol0 = true)
    (hcons : ∀ r c, r < 9 → c < 9 → st.board.get r c ≠ 0 → st.board.get r c = sol0.get r c)
    (h : generateBoard fuel st d g = some out) :
    ∃ sol, out.2.1.solution = some sol ∧ out.2.1.board = out.1 ∧
      completes State.fresh.board sol = true ∧ completes st.board sol = true ∧
      Carved sol out.1 ∧ zeroCount out.1 ≤ holesFor d := by
  unfold generateBoard at h
  cases hfill : fillBoard fuel st.board g with
  | none => simp [hfill] at h
  | some x =>
    obtain ⟨res, b, g1⟩ := x
    obtain ⟨_, hcb, hsol⟩ := fill_of_consistent h9 hsol0 hcons hfill
    simp only at hcb hsol
    simp only [hfill] at h
    cases hcarve : carveLoop fuel fuel b (holesFor d) 5 g1 with
    | none => simp [hcarve] at h
    | some y =>
      obtain ⟨board1, g2⟩ := y
      simp only [hcarve, Option.some.injEq] at h
      subst h
      obtain ⟨h1, h2⟩ := carveLoop_inv hsol fuel fuel b _ _ g1 _ (carved_full hsol) hcarve
      refine ⟨b, rfl, rfl, hsol, hcb, h1, ?_⟩
      have hz : zeroCount b = 0 := by
        rw [zeroCount_eq_zero_iff]
        intro r c hr hc
        have := (((fresh_completes_iff b).1 hsol).2.1 r c hr hc).1
        omega
      simp only at h2 ⊢
      omega

theorem fresh_consistent (sol : Grid) :
    ∀ r c, r < 9 → c < 9 → State.fresh.board.get r c ≠ 0 →
      State.fresh.board.get r c = sol.get r c := by
  have hz0 : ∀ r, r < 9 → ∀ c, c < 9 → State.fresh.board.get r c = 0 := by decide
  intro r c hr hc hne
  exact absurd (hz0 r hr c hc) hne

/-- An instance is fresh, or holds a solved grid as solution and a board of
which that grid is the only completion. -/
theorem instance_inv {st : State} (h : Instance st) :
    st = State.fresh ∨
      ∃ sol, st.solution = some sol ∧ completes State.fresh.board sol = true ∧
        Carved sol st.board := by
  induction h with
  | fresh => exact Or.inl rfl
  | generated _ hgen ih =>
    right
    rcases ih with rfl | ⟨sol0, _, hsol0, h9, hcons, _⟩
    · obtain ⟨sol, h1, h2, h3, _, h5, _⟩ :=
        generateBoard_inv fresh_is9x9 fresh_has_completion (fresh_consistent lexFirst) hgen
      exact ⟨sol, h1, h3, by rw [h2]; exact h5⟩
    · obtain ⟨sol, h1, h2, h3, _, h5, _⟩ := generateBoard_inv h9 hsol0 hcons hgen
      exact ⟨sol, h1, h3, by rw [h2]; exact h5⟩

theorem instance_fillable {st : State} (h : Instance st) :
    is9x9 st.board = true ∧
      ∃ sol0, completes State.fresh.board sol0 = true ∧
        ∀ r c, r < 9 → c < 9 → st.board.get r c ≠ 0 → st.board.get r c = sol0.get r c := by
  rcases instance_inv h with rfl | ⟨sol0, _, hsol0, h9, hcons, _⟩
  · exact ⟨fresh_is9x9, lexFirst, fresh_has_completion, fresh_consistent lexFirst⟩
  · exact ⟨h9, sol0, hsol0, hcons⟩

theorem regenerate_same_solution {st0 : State} (h0 : Instance st0) {fuel1 fuel2 : Nat}
    {d1 d2 : Option String} {g1 g2 : Rng} {out1 out2 : Grid × State × Rng}
    (h1 : generateBoard fuel1 st0 d1 g1 = some out1)
    (h2 : generateBoard fuel2 out1.2.1 d2 g2 = some out2) :
    ∃ sol, out1.2.1.solution = some sol ∧ out2.2.1.solution = some sol ∧
      Carved sol out1.1 ∧ Carved sol out2.1 := by
  obtain ⟨h9, sol0, hsol0, hcons⟩ := instance_fillable h0
  obtain ⟨sol, a1, a2, a3, _, a5, _⟩ := generateBoard_inv h9 hsol0 hcons h1
  obtain ⟨a9, acons, auniq⟩ := a5
  rw [← a2] at a9 acons auniq
  obtain ⟨sol2, b1, _, _, b4, b5, _⟩ := generateBoard_inv a9 a3 acons h2
  have : sol2 = sol := (auniq sol2).1 b4
  subst this
  refine ⟨sol2, a1, b1, ?_, b5⟩
  rw [a2] at a9 acons auniq
  exact ⟨a9, acons, auniq⟩

/-! ## The carve-out loop pass by pass -/

theorem carveLoop_eq_log (fuel : Nat) : ∀ (k : Nat) (board : Grid) (holes attempts : Nat)
    (g : Rng), carveLoop fuel k board holes attempts g
      = (carveLog fuel k board holes attempts g).map (fun x => (x.1, x.2.2)) := by
  intro k
  induction k with
  | zero => intro board holes attempts g; rfl
  | succ k ih =>
    intro board holes attempts g
    by_cases hcond : (decide (holes > 0) && decide (attempts > 0)) = true
    · simp only [carveLoop, carveLog, carveIter, hcond, if_true]
      cases hpick : pickFilled fuel board ((g.randomInt 9).1)
          (((g.randomInt 9).2.randomInt 9).1) (((g.randomInt 9).2.randomInt 9).2) with
      | none => rfl
      | some cell =>
        obtain ⟨row, col, g1⟩ := cell
        simp only
        cases hsolve : solve (some countCallback) fuel (board.set row col 0) 0 with
        | none => rfl
        | some x =>
          obtain ⟨res, b2, solutions⟩ := x
          simp only
          by_cases hone : (solutions != 1) = true
          · simp only [hone, if_true]
            rw [ih]
            cases carveLog fuel k ((board.set row col 0).set row col (board.get row col))
              holes (attempts - 1) g1 <;> rfl
          · simp only [hone, Bool.false_eq_true, if_false]
            rw [ih]
            cases carveLog fuel k (board.set row col 0) (holes - 1) attempts g1 <;> rfl
    · simp only [carveLoop, carveLog, hcond, Bool.false_eq_true, if_false]
      rfl

/-- What one pass does: it empties one filled cell, the counting run on the
board without it having given exactly 1, and takes one from `holes`; or it
leaves the board as it was and takes one from `attempts`. -/
theorem carveIter_cases {fuel : Nat} {board : Grid} {holes attempts : Nat} {g : Rng}
    {out : Bool × Grid × Nat × Nat × Rng} (h9 : is9x9 board = true)
    (h : carveIter fuel board holes attempts g = some out) :
    (out.1 = true ∧ out.2.2.1 = holes - 1 ∧ out.2.2.2.1 = attempts ∧
      zeroCount out.2.1 = zeroCount board + 1 ∧
      ∃ row col, row < 9 ∧ col < 9 ∧ board.get row col ≠ 0 ∧
        out.2.1 = board.set row col 0 ∧
        ∃ res b1, solve (some countCallback) fuel (board.set row col 0) 0
          = some (res, b1, 1)) ∨
    (out.1 = false ∧ out.2.1 = board ∧ out.2.2.1 = holes ∧ out.2.2.2.1 = attempts - 1) := by
  unfold carveIter at h
  cases hpick : pickFilled fuel board ((g.randomInt 9).1)
      (((g.randomInt 9).2.randomInt 9).1) (((g.randomInt 9).2.randomInt 9).2) with
  | none => simp [hpick] at h
  | some cell =>
    obtain ⟨row, col, g1⟩ := cell
    obtain ⟨hr, hc, hnz⟩ := pickFilled_some _ _ _ _ _ _ (randomInt_lt _ (by norm_num))
      (randomInt_lt _ (by norm_num)) hpick
    simp only at hr hc hnz
    simp only [hpick] at h
    cases hsolve : solve (some countCallback) fuel (board.set row col 0) 0 with
    | none => simp [hsolve] at h
    | some x =>
      obtain ⟨res, b2, solutions⟩ := x
      simp only [hsolve] at h
      by_cases hone : solutions = 1
      · simp only [hone, bne_self_eq_false, Bool.false_eq_true, if_false,
          Option.some.injEq] at h
        subst h
        left
        refine ⟨rfl, rfl, rfl, zeroCount_clear h9 hr hc hnz, row, col, hr, hc, hnz, rfl,
          res, b2, ?_⟩
        rw [hsolve, hone]
      · have hne : (solutions != 1) = true := by simp [hone]
        simp only [hne, if_true, Option.some.injEq] at h
        subst h
        right
        exact ⟨rfl, set_restore h9 hr hc 0, rfl, rfl⟩

theorem carveLog_inv (fuel : Nat) : ∀ (k : Nat) (board : Grid) (holes attempts : Nat) (g : Rng)
    (out : Grid × List Bool × Rng), is9x9 board = true →
    carveLog fuel k board holes attempts g = some out →
    zeroCount out.1 = zeroCount board + out.2.1.count true ∧
      out.2.1.count true ≤ holes ∧ out.2.1.count false ≤ attempts ∧
      (out.2.1.count true = holes ∨ out.2.1.count false = attempts) := by
  intro k
  induction k with
  | zero => intro board holes attempts g out _ h; simp [carveLog] at h
  | succ k ih =>
    intro board holes attempts g out h9 h
    by_cases hcond : (decide (holes > 0) && decide (attempts > 0)) = true
    · simp only [carveLog, hcond, if_true] at h
      have hpos : 0 < holes ∧ 0 < attempts := by
        simpa only [Bool.and_eq_true, decide_eq_true_eq] using hcond
      cases hiter : carveIter fuel board holes attempts g with
      | none => simp [hiter] at h
      | some y =>
        obtain ⟨kept, b1, h1, a1, g1⟩ := y
        simp only [hiter] at h
        cases hrest : carveLog fuel k b1 h1 a1 g1 with
        | none => simp [hrest] at h
        | some z =>
          obtain ⟨b2, log, g2⟩ := z
          simp only [hrest, Option.some.injEq] at h
          subst h
          simp only
          rcases carveIter_cases h9 hiter with ⟨e1, e2, e3, e4, row, col, _, _, _, e5, _⟩ |
            ⟨e1, e2, e3, e4⟩
          · simp only at e1 e2 e3 e4 e5
            subst e1 e2 e3
            have h9' : is9x9 b1 = true := by rw [e5]; exact is9x9_set h9 _ _ _
            obtain ⟨i1, i2, i3, i4⟩ := ih b1 _ _ g1 _ h9' hrest
            simp only at i1 i2 i3 i4
            simp only [List.count_cons_self, List.count_cons_of_ne (by decide : true ≠ false)]
            refine ⟨by omega, by omega, i3, ?_⟩
            rcases i4 with i4 | i4
            · exact Or.inl (by omega)
            · exact Or.inr i4
          · simp only at e1 e2 e3 e4
            subst e1 e2 e3 e4
            obtain ⟨i1, i2, i3, i4⟩ := ih b1 _ _ g1 _ h9 hrest
            simp only at i1 i2 i3 i4
            simp only [List.count_cons_self, List.count_cons_of_ne (by decide : false ≠ true)]
            refine ⟨i1, i2, by omega, ?_⟩
            rcases i4 with i4 | i4
            · exact Or.inl i4
            · exact Or.inr (by omega)
    · simp only [carveLog, hcond, Bool.false_eq_true, if_false, Option.some.injEq] at h
      subst h
      simp only [List.count_nil, Nat.add_zero, Nat.zero_le, true_and]
      simp only [Bool.and_eq_true, decide_eq_true_eq, not_and_or, not_lt, Nat.le_zero] at hcond
      rcases hcond with h1 | h1
      · exact Or.inl h1.symm
      · exact Or.inr h1.symm

theorem generateBoard_log {fuel : Nat} {st : State} (hst : Instance st) {d : Option String}
    {g : Rng} {out : Grid × State × Rng} (h : generateBoard fuel st d g = some out) :
    ∃ full g1 log g2, fillBoard fuel st.board g = some (true, full, g1) ∧
      zeroCount full = 0 ∧
      carveLog fuel fuel full (holesFor d) 5 g1 = some (out.1, log, g2) ∧
      zeroCount out.1 = log.count true ∧ log.count false ≤ 5 ∧
      (zeroCount out.1 = holesFor d ∨ log.count false = 5) := by
  obtain ⟨h9, sol0, hsol0, hcons⟩ := instance_fillable hst
  unfold generateBoard at h
  cases hfill : fillBoard fuel st.board g with
  | none => simp [hfill] at h
  | some x =>
    obtain ⟨res, b, g1⟩ := x
    obtain ⟨hres, _, hsol⟩ := fill_of_consistent h9 hsol0 hcons hfill
    simp only at hres hsol
    subst hres
    simp only [hfill] at h
    rw [carveLoop_eq_log] at h
    cases hlog : carveLog fuel fuel b (holesFor d) 5 g1 with
    | none => simp [hlog] at h
    | some y =>
      obtain ⟨board1, log, g2⟩ := y
      simp only [hlog, Option.map_some', Option.some.injEq] at h
      subst h
      obtain ⟨b9, bdig, _⟩ := (fresh_completes_iff b).1 hsol
      have hz : zeroCount b = 0 := by
        rw [zeroCount_eq_zero_iff]
        intro r c hr hc
        have := (bdig r c hr hc).1
        omega
      obtain ⟨i1, i2, i3, i4⟩ := carveLog_inv fuel fuel b _ _ g1 _ b9 hlog
      simp only at i1 i2 i3 i4 ⊢
      refine ⟨b, g1, log, g2, rfl, hz, hlog, by omega, i3, ?_⟩
      rcases i4 with i4 | i4
      · exact Or.inl (by omega)
      · exact Or.inr i4

/-! ## The placement check on arbitrary arguments -/

theorem cellAt_row_out {board : Grid} (h9 : is9x9 board = true) {r : Int}
    (hr : r < 0 ∨ 9 ≤ r) (c : Int) : cellAt board r c = none := by
  unfold cellAt
  by_cases hneg : r < 0
  · simp [hneg]
  · have hlen := is9x9_length h9
    have hle : board.length ≤ r.toNat := by omega
    simp [hneg, List.getElem?_eq_none hle]

theorem cellAt_row_in {board : Grid} (h9 : is9x9 board = true) {r : Int} (h0 : 0 ≤ r)
    (hr : r < 9) (c : Int) : ∃ v, cellAt board r c = some v := by
  unfold cellAt
  have hlen := is9x9_length h9
  have hlt : r.toNat < board.length := by omega
  have hneg : ¬ r < 0 := by omega
  simp [hneg, List.getElem?_eq_getElem hlt]

theorem cellAt_nat {board : Grid} (h9 : is9x9 board = true) {r c : Nat} (hr : r < 9)
    (hc : c < 9) : cellAt board (r : Int) (c : Int) = some (some (board.get r c)) := by
  unfold cellAt
  have hlen := is9x9_length h9
  have hlt : r < board.length := by omega
  have hrow := is9x9_row_length h9 hr
  rw [List.getD_eq_getElem _ _ hlt] at hrow
  have hclt : c < board[r].length := by omega
  have h1 : ¬ ((r : Int) < 0) := by omega
  have h2 : ¬ ((c : Int) < 0) := by omega
  simp [h1, h2, Int.toNat_ofNat, List.getElem?_eq_getElem hlt, List.getElem?_eq_getElem hclt,
    Grid.get, List.getD_eq_getElem?_getD]

theorem scanCells_isSome {board : Grid} (h9 : is9x9 board = true) (num : Int) :
    ∀ l : List (Int × Int × Bool), (∀ e ∈ l, 0 ≤ e.1 ∧ e.1 < 9) →
      ∃ b, scanCells board num l = some b := by
  intro l
  induction l with
  | nil => intro _; exact ⟨true, rfl⟩
  | cons e rest ih =>
    intro h
    obtain ⟨r, c, other⟩ := e
    obtain ⟨h0, h1⟩ := h (r, c, other) (List.mem_cons_self _ _)
    obtain ⟨v, hv⟩ := cellAt_row_in h9 h0 h1 c
    obtain ⟨b, hb⟩ := ih (fun e he => h e (List.mem_cons_of_mem _ he))
    simp only [scanCells, hv]
    split
    · exact ⟨false, rfl⟩
    · exact ⟨b, hb⟩

theorem scanCells_eq_all {board : Grid} (h9 : is9x9 board = true) (n : Nat) :
    ∀ l : List (Int × Int × Bool),
      (∀ e ∈ l, ∃ rn cn : Nat, rn < 9 ∧ cn < 9 ∧ e.1 = (rn : Int) ∧ e.2.1 = (cn : Int)) →
      scanCells board (n : Int) l
        = some (l.all (fun e => !(board.get e.1.toNat e.2.1.toNat == n && e.2.2))) := by
  intro l
  induction l with
  | nil => intro _; rfl
  | cons e rest ih =>
    intro h
    obtain ⟨r, c, other⟩ := e
    obtain ⟨rn, cn, hr, hc, e1, e2⟩ := h (r, c, other) (List.mem_cons_self _ _)
    simp only at e1 e2
    subst e1 e2
    have hrest := ih (fun e he => h e (List.mem_cons_of_mem _ he))
    simp only [scanCells, cellAt_nat h9 hr hc, Option.map_some', hrest, List.all_cons,
      Int.toNat_ofNat]
    by_cases hv : board.get rn cn = n
    · cases other <;> simp [hv]
    · have hv' : ¬ ((board.get rn cn : Int) = (n : Int)) := by
        intro h1
        exact hv (Int.ofNat_inj.1 h1)
      simp [hv, hv']

theorem isValidJs_row_out {board : Grid} (h9 : is9x9 board = true) {row : Int}
    (hr : row < 0 ∨ 9 ≤ row) (col num : Int) : isValidJs board row col num = none := by
  have hrange : List.range 9 = 0 :: [1, 2, 3, 4, 5, 6, 7, 8] := by decide
  unfold isValidJs
  rw [hrange, List.map_cons, List.cons_append]
  simp only [scanCells, cellAt_row_out h9 hr]

theorem isValidJs_row_in {board : Grid} (h9 : is9x9 board = true) {row : Int}
    (h0 : 0 ≤ row) (hr : row < 9) (col num : Int) :
    ∃ b, isValidJs board row col num = some b := by
  unfold isValidJs
  apply scanCells_isSome h9
  intro e he
  simp only [List.mem_append, List.mem_map, List.mem_flatMap, List.mem_range] at he
  rcases he with ⟨x, hx, rfl⟩ | ⟨x, hx, rfl⟩ | ⟨i, hi, j, hj, rfl⟩
  · exact ⟨h0, hr⟩
  · simp only
    omega
  · simp only
    omega

theorem isValidJs_eq_isValid {board : Grid} (h9 : is9x9 board = true) {row col : Nat}
    (hr : row < 9) (hc : col < 9) (num : Nat) :
    isValidJs board (row : Int) (col : Int) (num : Int) = some (isValid board row col num) := by
  unfold isValidJs
  rw [scanCells_eq_all h9 num]
  · congr 1
    rw [Bool.eq_iff_iff]
    simp only [isValid, Bool.and_eq_true, List.all_eq_true, List.mem_append, List.mem_map,
      List.mem_flatMap, List.mem_range]
    constructor
    · intro h
      refine ⟨fun x hx => ?_, fun x hx => ?_, fun i hi j hj => ?_⟩
      · have := h _ (Or.inl ⟨x, hx, rfl⟩)
        simpa using this
      · have := h _ (Or.inr (Or.inl ⟨x, hx, rfl⟩))
        simpa using this
      · have := h _ (Or.inr (Or.inr ⟨i, hi, j, hj, rfl⟩))
        have e1 : ((i : Int) + (row : Int) / 3 * 3).toNat = i + row / 3 * 3 := by omega
        have e2 : ((j : Int) + (col : Int) / 3 * 3).toNat = j + col / 3 * 3 := by omega
        have e3 : ((i : Int) + (row : Int) / 3 * 3 = (row : Int)) ↔ i + row / 3 * 3 = row := by
          omega
        have e4 : ((j : Int) + (col : Int) / 3 * 3 = (col : Int)) ↔ j + col / 3 * 3 = col := by
          omega
        simpa [e1, e2, e3, e4] using this
    · rintro ⟨h1, h2, h3⟩ e (⟨x, hx, rfl⟩ | ⟨x, hx, rfl⟩ | ⟨i, hi, j, hj, rfl⟩)
      · simpa using h1 x hx
      · simpa using h2 x hx
      · have e1 : ((i : Int) + (row : Int) / 3 * 3).toNat = i + row / 3 * 3 := by omega
        have e2 : ((j : Int) + (col : Int) / 3 * 3).toNat = j + col / 3 * 3 := by omega
        have e3 : ((i : Int) + (row : Int) / 3 * 3 = (row : Int)) ↔ i + row / 3 * 3 = row := by
          omega
        have e4 : ((j : Int) + (col : Int) / 3 * 3 = (col : Int)) ↔ j + col / 3 * 3 = col := by
          omega
        simpa [e1, e2, e3, e4] using h3 i hi j hj
  · intro e he
    simp only [List.mem_append, List.mem_map, List.mem_flatMap, List.mem_range] at he
    rcases he with ⟨x, hx, rfl⟩ | ⟨x, hx, rfl⟩ | ⟨i, hi, j, hj, rfl⟩
    · exact ⟨row, x, hr, hx, rfl, rfl⟩
    · exact ⟨x, col, hx, hc, rfl, rfl⟩
    · refine ⟨i + row / 3 * 3, j + col / 3 * 3, by omega, by omega, ?_, ?_⟩
      · simp only
        omega
      · simp only
        omega

/-! ## Concrete runs -/

theorem solve_fresh_run :
    (solve (none : Option (Grid → Unit → Unit)) 82 State.fresh.board ()).map
      (fun x => (x.1, x.2.1)) = some (true, lexFirst) := by decide!

theorem fill_identity_fresh {g : Rng} (hg : IdShuffle g) {fuel : Nat} (hfuel : 81 < fuel) :
    ∃ g2, fillBoard fuel State.fresh.board g = some (true, lexFirst, g2) := by
  have hrun := solve_fresh_run
  rcases fillBoard_eq_solve () 82 State.fresh.board g hg with ⟨e1, _⟩ |
    ⟨res, b2, g2, _, e1, e2⟩
  · rw [e1] at hrun
    simp at hrun
  · rw [e2] at hrun
    simp only [Option.map_some', Option.some.injEq, Prod.mk.injEq] at hrun
    obtain ⟨rfl, rfl⟩ := hrun
    exact ⟨g2, fillBoard_mono (by omega) _ _ _ e1⟩

theorem lexFirst_ne_canonical : lexFirst ≠ canonical := by decide

theorem example_run_state :
    ∃ g1, generateBoard 100 State.fresh none exampleRng
      = some (exampleBoard, { board := exampleBoard, solution := some lexFirst }, g1) := by
  obtain ⟨st, g1, hrun, hsol⟩ := example_run
  obtain ⟨_, _, hb, _⟩ := generateBoard_spec hrun
  simp only at hb
  refine ⟨g1, ?_⟩
  rw [hrun]
  cases st with
  | mk b sol =>
    simp only at hsol hb
    subst hsol hb
    rfl

theorem example_rerun :
    ∃ st g1, generateBoard 100 { board := exampleBoard, solution := some lexFirst } none
        exampleRng2 = some (exampleBoard, st, g1) ∧ st.solution = some lexFirst := by
  have h : (generateBoard 100 { board := exampleBoard, solution := some lexFirst } none
      exampleRng2).map (fun x => (x.1, x.2.1.solution))
        = some (exampleBoard, some lexFirst) := by decide!
  cases hgen : generateBoard 100 { board := exampleBoard, solution := some lexFirst } none
      exampleRng2 with
  | none => simp [hgen] at h
  | some x =>
    obtain ⟨b, st, g1⟩ := x
    simp only [hgen, Option.map_some', Option.some.injEq, Prod.mk.injEq] at h
    exact ⟨st, g1, by rw [h.1], h.2⟩

theorem fourWay_run :
    solve (some countCallback) 82 fourWayBoard 0 = some (false, fourWayBoard, 4) := by
  decide!

/-! ## Callbacks that leave the board alone -/

/-- A callback that hands the board back as it found it is a callback that only
reads the board: the run is the run of `solve` with that callback. -/
theorem solveW_eq_solve {σ : Type} (cb : Grid → σ → Grid × σ)
    (hcb : ∀ b s, (cb b s).1 = b) :
    ∀ (fuel : Nat) (board : Grid) (s : σ),
      solveW cb fuel board s = solve (some (fun b s1 => (cb b s1).2)) fuel board s := by
  intro fuel
  induction fuel with
  | zero => intro board s; rfl
  | succ fuel ih =>
    intro board s
    have hrec : solveW cb fuel = solve (some (fun b s1 => (cb b s1).2)) fuel := by
      funext b s1
      exact ih b s1
    cases hfe : findEmpty board with
    | none => simp only [solveW, solve, hfe, hcb]
    | some rc =>
      obtain ⟨r, c⟩ := rc
      simp only [solveW, solve, hfe, hrec, Option.isSome_some]

/-- C11: the postcondition of the filler, whatever the candidate order.  On a
9x9 board whose filled cells are mutually conflict-free, and for every random
source, `fillBoard` returns for every fuel above 81; when it returns true the
board has no zero, passes `checkWin` and agrees with the input on every cell
that was non-zero; when it returns false the board is the input board. -/
theorem fillBoard_postcondition (board : Grid) (g : Rng) (h9 : is9x9 board = true)
    (hcf : conflictFree board = true) :
    (∀ fuel, 81 < fuel → ∃ x, fillBoard fuel board g = some x) ∧
    ∀ fuel x, fillBoard fuel board g = some x →
      (x.1 = true →
        (∀ r, r < 9 → ∀ c, c < 9 → x.2.1.get r c ≠ 0) ∧ checkWin x.2.1 = true ∧
          ∀ r, r < 9 → ∀ c, c < 9 → board.get r c ≠ 0 → x.2.1.get r c = board.get r c) ∧
      (x.1 = false → x.2.1 = board) := by
  constructor
  · intro fuel hfuel
    obtain ⟨res, b2, g2, hrun, _, _⟩ := fillBoard_spec fuel board g h9 hcf
      (lt_of_le_of_lt (zeroCount_le _) hfuel)
    exact ⟨_, hrun⟩
  · intro fuel x hx
    have hup := fillBoard_mono (le_max_left fuel 82) _ _ _ hx
    obtain ⟨res, b2, g2, hrun, ht, hf⟩ := fillBoard_spec (max fuel 82) board g h9 hcf
      (lt_of_le_of_lt (zeroCount_le _) (lt_of_lt_of_le (by norm_num) (le_max_right fuel 82)))
    rw [hrun] at hup
    cases hup
    refine ⟨fun hres => ?_, fun hres => (hf hres).1⟩
    obtain ⟨_, _, a3, a4⟩ := (completes_iff board b2).1 (ht hres)
    exact ⟨fun r hr c hc => ((checkWin_iff b2).1 a4).1 r c hr hc, a4,
      fun r hr c hc hne => a3 r c hr hc hne⟩

/-- Witness of C11 on `exampleBoard` with the random source `idRng`. -/
theorem fillBoard_postcondition_witness :
    is9x9 exampleBoard = true ∧ conflictFree exampleBoard = true ∧
      ∃ x, fillBoard 82 exampleBoard idRng = some x :=
  ⟨by decide, by decide,
    (fillBoard_postcondition exampleBoard idRng (by decide) (by decide)).1 82 (by norm_num)⟩

/-- C12: the short-circuit mode decides existence.  On a 9x9 board whose filled
cells are mutually conflict-free, `solve` without a callback returns for every
fuel above 81, and returns true exactly when the board has a completion; when
it returns true the board is left as a completion of the input, which passes
`checkWin` and agrees with the input on its non-zero cells; when it returns
false the board is the input board. -/
theorem solve_decides_existence (board : Grid) (h9 : is9x9 board = true)
    (hcf : conflictFree board = true) {σ : Type} (s : σ) (fuel : Nat) (hfuel : 81 < fuel) :
    ∃ res b2, solve (none : Option (Grid → σ → σ)) fuel board s = some (res, b2, s) ∧
      (res = true ↔ ∃ x, completes board x = true) ∧
      (res = true → completes board b2 = true ∧ checkWin b2 = true ∧
        ∀ r, r < 9 → ∀ c, c < 9 → board.get r c ≠ 0 → b2.get r c = board.get r c) ∧
      (res = false → b2 = board) := by
  obtain ⟨res, b2, hrun, ht, hf⟩ := solve_none_spec fuel board s h9 hcf
    (lt_of_le_of_lt (zeroCount_le _) hfuel)
  refine ⟨res, b2, hrun, ⟨fun hres => ⟨b2, ht hres⟩, ?_⟩, fun hres => ?_,
    fun hres => (hf hres).1⟩
  · rintro ⟨x, hx⟩
    cases res with
    | true => rfl
    | false =>
      rw [(hf rfl).2 x] at hx
      exact absurd hx (by decide)
  · obtain ⟨_, _, a3, a4⟩ := (completes_iff board b2).1 (ht hres)
    exact ⟨ht hres, a4, fun r hr c hc hne => a3 r c hr hc hne⟩

/-- Witness of C12 on `twoWayBoard`, a conflict-free 9x9 board, with fuel 82. -/
theorem solve_decides_existence_witness :
    is9x9 twoWayBoard = true ∧ conflictFree twoWayBoard = true ∧
    ∃ res b2, solve (none : Option (Grid → Unit → Unit)) 82 twoWayBoard () = some (res, b2, ()) ∧
      (res = true ↔ ∃ x, completes twoWayBoard x = true) ∧
      (res = true → completes twoWayBoard b2 = true ∧ checkWin b2 = true ∧
        ∀ r, r < 9 → ∀ c, c < 9 → twoWayBoard.get r c ≠ 0 →
          b2.get r c = twoWayBoard.get r c) ∧
      (res = false → b2 = twoWayBoard) :=
  ⟨by decide, by decide,
    solve_decides_existence twoWayBoard (by decide) (by decide) () 82 (by norm_num)⟩

/-- C13, as the code has it: `isValid` makes no range check.  On a 9x9 board a
call with `row` in 0..8 returns a boolean for every `col` and every `num`, in
range or not; a call with `row` outside 0..8 throws, because the row it reads
is undefined; and for `row` and `col` in 0..8 and a natural `num` the boolean
is the one of the placement rule. -/
theorem isValid_no_range_check (board : Grid) (h9 : is9x9 board = true) :
    (∀ row col num : Int, 0 ≤ row → row < 9 → ∃ b, isValidJs board row col num = some b) ∧
    (∀ row col num : Int, (row < 0 ∨ 9 ≤ row) → isValidJs board row col num = none) ∧
    (∀ row col num : Nat, row < 9 → col < 9 →
      isValidJs board (row : Int) (col : Int) (num : Int)
        = some (isValid board row col num)) :=
  ⟨fun _ col num h0 hr => isValidJs_row_in h9 h0 hr col num,
    fun _ col num hr => isValidJs_row_out h9 hr col num,
    fun _ _ num hr hc => isValidJs_eq_isValid h9 hr hc num⟩

/-- Witness of C13 as the code has it, on `lexFirst`: row 9 is outside the board, and the
call throws. -/
theorem isValid_no_range_check_witness :
    is9x9 lexFirst = true ∧ isValidJs lexFirst 9 0 1 = none :=
  ⟨by decide, (isValid_no_range_check lexFirst (by decide)).2.1 9 0 1 (Or.inr (by decide))⟩

/-- Counterexample to C13 as stated: on `lexFirst`, the call with `num = 10` at
(0, 0) returns true, and the call with `col = 9` in row 0 returns false; neither
fails. -/
theorem isValid_out_of_range_returns :
    isValidJs lexFirst 0 0 10 = some true ∧ isValidJs lexFirst 0 9 1 = some false := by
  decide

/-- C14: the retry budget of 5 is shared across the whole carve-out.  When
`generateBoard` returns on an instance, fresh or generated before, the fill has
left a full board, and the passes of the loop, logged in `log` as kept or
rejected, satisfy: the zero cells of the returned board are the kept removals,
the rejections are at most 5, and the zero cells number the target of the
difficulty or the rejections number exactly 5.  Each pass either empties one
filled cell, the counting run having given 1, or leaves the board unchanged and
takes one from `attempts`. -/
theorem carve_budget_shared (fuel : Nat) (st : State) (hst : Instance st)
    (difficulty : Option String) (g : Rng) (board : Grid) (st1 : State) (g1 : Rng)
    (h : generateBoard fuel st difficulty g = some (board, st1, g1)) :
    (∃ full g0 log g2, fillBoard fuel st.board g = some (true, full, g0) ∧
      zeroCount full = 0 ∧
      carveLog fuel fuel full (holesFor difficulty) 5 g0 = some (board, log, g2) ∧
      zeroCount board = log.count true ∧ log.count false ≤ 5 ∧
      (zeroCount board = holesFor difficulty ∨ log.count false = 5)) ∧
    (∀ (b : Grid) (holes attempts : Nat) (g3 : Rng) (out : Bool × Grid × Nat × Nat × Rng),
      is9x9 b = true → carveIter fuel b holes attempts g3 = some out →
      (out.1 = true ∧ out.2.2.1 = holes - 1 ∧ out.2.2.2.1 = attempts ∧
        zeroCount out.2.1 = zeroCount b + 1 ∧
        ∃ row col, row < 9 ∧ col < 9 ∧ b.get row col ≠ 0 ∧ out.2.1 = b.set row col 0 ∧
          ∃ res b1, solve (some countCallback) fuel (b.set row col 0) 0
            = some (res, b1, 1)) ∨
      (out.1 = false ∧ out.2.1 = b ∧ out.2.2.1 = holes ∧ out.2.2.2.1 = attempts - 1)) :=
  ⟨generateBoard_log hst h, fun _ _ _ _ _ hb hiter => carveIter_cases hb hiter⟩

/-- Witness of C14 on the run `exampleRng` of a fresh instance, which keeps
three removals and rejects five. -/
theorem carve_budget_shared_witness :
    ∃ log : List Bool, zeroCount exampleBoard = log.count true ∧ log.count false ≤ 5 ∧
      (zeroCount exampleBoard = holesFor none ∨ log.count false = 5) := by
  obtain ⟨st, g1, hrun, _⟩ := example_run
  obtain ⟨⟨_, _, log, _, _, _, _, h1, h2, h3⟩, _⟩ :=
    carve_budget_shared 100 State.fresh Instance.fresh none exampleRng exampleBoard st g1 hrun
  exact ⟨log, h1, h2, h3⟩

/-- C15, as the code has it: counting mode has no cap.  On a 9x9 board whose
filled cells are mutually conflict-free, for any list of distinct completions
of the board, a counting run (fuel above 81) ends with the counter at least at
the length of the list. -/
theorem solve_counts_without_cap (board : Grid) (h9 : is9x9 board = true)
    (hcf : conflictFree board = true) (grids : List Grid) (hnd : grids.Nodup)
    (hall : ∀ x ∈ grids, completes board x = true) (fuel : Nat) (hfuel : 81 < fuel) :
    ∃ n, grids.length ≤ n ∧
      solve (some countCallback) fuel board 0 = some ((findEmpty board).isNone, board, n) := by
  obtain ⟨L, _, hmem, hrun⟩ := solve_spec fuel board h9 hcf
    (lt_of_le_of_lt (zeroCount_le _) hfuel)
  refine ⟨L.length, ?_, ?_⟩
  · exact (List.subperm_of_subset hnd (fun x hx => (hmem x).2 (hall x hx))).length_le
  · rw [hrun Nat countCallback 0, count_eq_length, Nat.zero_add]

/-- Witness of C15 as the code has it, on `fourWayBoard` with three of its completions. -/
theorem solve_counts_without_cap_witness :
    ∃ n, 3 ≤ n ∧
      solve (some countCallback) 82 fourWayBoard 0
        = some ((findEmpty fourWayBoard).isNone, fourWayBoard, n) :=
  solve_counts_without_cap fourWayBoard (by decide) (by decide)
    [lexFirst, swapFirst, swapSecond] (by decide) (by decide) 82 (by norm_num)

/-- Counterexample to C15 as stated: on `fourWayBoard` the counting run calls
the callback 4 times, more than 2. -/
theorem solve_counts_past_two :
    solve (some countCallback) 82 fourWayBoard 0 = some (false, fourWayBoard, 4) ∧ ¬ 4 ≤ 2 :=
  ⟨fourWay_run, by decide⟩

/-- C16: the solver is the filler with the candidate order fixed.  Under a
random source that makes every shuffle the identity, `fillBoard` and `solve`
without a callback return the same boolean and leave the same board, for every
board and every fuel; on a 9x9 board both return for every fuel above 81. -/
theorem fillBoard_identity_eq_solve (board : Grid) (g : Rng) (hg : IdShuffle g) {σ : Type}
    (s : σ) :
    (∀ fuel, (fillBoard fuel board g).map (fun x => (x.1, x.2.1))
      = (solve (none : Option (Grid → σ → σ)) fuel board s).map (fun x => (x.1, x.2.1))) ∧
    (is9x9 board = true → ∀ fuel, 81 < fuel →
      ∃ res b2, (fillBoard fuel board g).map (fun x => (x.1, x.2.1)) = some (res, b2) ∧
        (solve (none : Option (Grid → σ → σ)) fuel board s).map (fun x => (x.1, x.2.1))
          = some (res, b2)) := by
  have hall : ∀ fuel, (fillBoard fuel board g).map (fun x => (x.1, x.2.1))
      = (solve (none : Option (Grid → σ → σ)) fuel board s).map (fun x => (x.1, x.2.1)) := by
    intro fuel
    rcases fillBoard_eq_solve s fuel board g hg with ⟨e1, e2⟩ | ⟨res, b2, g2, _, e1, e2⟩
    · rw [e1, e2]
      rfl
    · rw [e1, e2]
      rfl
  refine ⟨hall, fun h9 fuel hfuel => ?_⟩
  obtain ⟨res, b2, s2, hrun, _, _⟩ := solve_frame (none : Option (Grid → σ → σ)) fuel board s
    h9 (lt_of_le_of_lt (zeroCount_le _) hfuel)
  refine ⟨res, b2, ?_, ?_⟩
  · rw [hall fuel, hrun]
    rfl
  · rw [hrun]
    rfl

/-- Witness of C16 on `twoWayBoard` with the random source `idRng`. -/
theorem fillBoard_identity_eq_solve_witness :
    (fillBoard 82 twoWayBoard idRng).map (fun x => (x.1, x.2.1))
      = (solve (none : Option (Grid → Unit → Unit)) 82 twoWayBoard ()).map
          (fun x => (x.1, x.2.1)) :=
  (fillBoard_identity_eq_solve twoWayBoard idRng idRng_idShuffle ()).1 82

/-- C17, as the code has it: under a random source that makes every shuffle the
identity, `fillBoard` on the all-zero board returns true for every fuel above 81
and leaves the grid `lexFirst`, whose rows are 123456789, 456789123, 789123456,
214365897, 365897214, 897214365, 531642978, 642978531, 978531642. -/
theorem fill_identity_lexFirst (g : Rng) (hg : IdShuffle g) (fuel : Nat) (hfuel : 81 < fuel) :
    ∃ g2, fillBoard fuel State.fresh.board g = some (true, lexFirst, g2) :=
  fill_identity_fresh hg hfuel

/-- Witness of C17 as the code has it, with the random source `idRng` and fuel 82. -/
theorem fill_identity_lexFirst_witness :
    ∃ g2, fillBoard 82 State.fresh.board idRng = some (true, lexFirst, g2) :=
  fill_identity_lexFirst idRng idRng_idShuffle 82 (by norm_num)

/-- Counterexample to C17 as stated: with the random source `idRng`, the fill
of the all-zero board leaves `lexFirst`, which is not the pattern `canonical`;
row 3 starts with 2, 1 where the pattern has 2, 3. -/
theorem fill_identity_not_canonical :
    (fillBoard 82 State.fresh.board idRng).map (fun x => (x.1, x.2.1)) = some (true, lexFirst) ∧
      lexFirst ≠ canonical ∧ lexFirst.get 3 1 = 1 ∧ canonical.get 3 1 = 3 := by
  obtain ⟨g2, h⟩ := fill_identity_fresh idRng_idShuffle (by norm_num : 81 < 82)
  refine ⟨?_, lexFirst_ne_canonical, by decide, by decide⟩
  rw [h]
  rfl

/-- C18: repeated generation on one instance cannot change the solution.  When
`generateBoard` has returned on an instance, leaving the state `st1`, any
further call that returns on that state stores the same grid in
`this.solution`; the grid is the only completion of both returned boards, so
only the holes can differ. -/
theorem regenerate_keeps_solution (st0 : State) (h0 : Instance st0) (fuel1 fuel2 : Nat)
    (d1 d2 : Option String) (g1 g2 : Rng) (b1 b2 : Grid) (st1 st2 : State) (g3 g4 : Rng)
    (h1 : generateBoard fuel1 st0 d1 g1 = some (b1, st1, g3))
    (h2 : generateBoard fuel2 st1 d2 g2 = some (b2, st2, g4)) :
    st2.solution = st1.solution ∧
      ∃ sol, st1.solution = some sol ∧ Carved sol b1 ∧ Carved sol b2 := by
  obtain ⟨sol, a1, a2, a3, a4⟩ := regenerate_same_solution h0 h1 h2
  simp only at a1 a2 a3 a4
  exact ⟨by rw [a1, a2], sol, a1, a3, a4⟩

/-- Witness of C18: the run `exampleRng` on a fresh instance followed by the
run `exampleRng2` on the state it leaves; both store `lexFirst`. -/
theorem regenerate_keeps_solution_witness :
    ∃ st2 : State, st2.solution = some lexFirst ∧ Carved lexFirst exampleBoard := by
  obtain ⟨g3, hrun1⟩ := example_run_state
  obtain ⟨st2, g4, hrun2, _⟩ := example_rerun
  obtain ⟨e1, sol, e2, e3, _⟩ := regenerate_keeps_solution State.fresh Instance.fresh 100 100
    none none exampleRng exampleRng2 exampleBoard exampleBoard _ st2 g3 g4 hrun1 hrun2
  simp only [Option.some.injEq] at e2
  subst e2
  exact ⟨st2, e1, e3⟩

/-- C8: consistency of puzzle and solution.  Whenever `generateBoard` returns,
on a fresh instance or on one that generated before, the returned board is
`this.board`, and each of its non-zero cells equals the cell of `this.solution`
at the same place. -/
theorem generated_puzzle_consistent (fuel : Nat) (st : State) (hst : Instance st)
    (difficulty : Option String) (g : Rng) (board : Grid) (st1 : State) (g1 : Rng)
    (h : generateBoard fuel st difficulty g = some (board, st1, g1)) :
    st1.board = board ∧
    ∃ sol, st1.solution = some sol ∧
      ∀ r, r < 9 → ∀ c, c < 9 → board.get r c ≠ 0 → board.get r c = sol.get r c := by
  obtain ⟨h9, sol0, hsol0, hcons0⟩ := instance_fillable hst
  obtain ⟨sol, h1, h2, _, _, ⟨_, hcons, _⟩, _⟩ := generateBoard_inv h9 hsol0 hcons0 h
  exact ⟨h2, sol, h1, fun r hr c hc hne => hcons r c hr hc hne⟩

/-- Witness of C8 on a second call: the run `exampleRng2` on the instance the
run `exampleRng` leaves; cell (8, 8) of the returned board holds what the
stored solution `lexFirst` holds there. -/
theorem generated_puzzle_consistent_witness :
    exampleBoard.get 8 8 = lexFirst.get 8 8 := by
  obtain ⟨g3, hrun1⟩ := example_run_state
  obtain ⟨st2, g4, hrun2, hsol⟩ := example_rerun
  obtain ⟨_, sol, h1, h2⟩ :=
    generated_puzzle_consistent 100 { board := exampleBoard, solution := some lexFirst }
      (Instance.generated Instance.fresh hrun1) none exampleRng2 exampleBoard st2 g4 hrun2
  rw [hsol] at h1
  cases h1
  exact h2 8 (by decide) 8 (by decide) (by decide)

/-- C9: the hole count bound.  Whenever `generateBoard` returns, on a fresh
instance or on one that generated before, the number of zero cells of the
returned board is at most the target of the difficulty: 40 for medium, 50 for
hard, and 30 for easy, for any other string and for an omitted argument. -/
theorem generated_holes_bound (fuel : Nat) (st : State) (hst : Instance st)
    (difficulty : Option String) (g : Rng) (board : Grid) (st1 : State) (g1 : Rng)
    (h : generateBoard fuel st difficulty g = some (board, st1, g1)) :
    zeroCount board ≤
      (if difficulty = some "medium" then 40 else if difficulty = some "hard" then 50
        else 30) := by
  obtain ⟨h9, sol0, hsol0, hcons0⟩ := instance_fillable hst
  obtain ⟨_, _, _, _, _, _, hb⟩ := generateBoard_inv h9 hsol0 hcons0 h
  have htab : holesFor difficulty =
      (if difficulty = some "medium" then 40 else if difficulty = some "hard" then 50
        else 30) := by
    cases difficulty with
    | none => simp [holesFor]
    | some s => simp [holesFor]
  rw [← htab]
  exact hb

/-- Witness of C9 on a second call: the run `exampleRng2`, with the difficulty
omitted, on the instance the run `exampleRng` leaves. -/
theorem generated_holes_bound_witness : zeroCount exampleBoard ≤ 30 := by
  obtain ⟨g3, hrun1⟩ := example_run_state
  obtain ⟨st2, g4, hrun2, _⟩ := example_rerun
  exact generated_holes_bound 100 { board := exampleBoard, solution := some lexFirst }
    (Instance.generated Instance.fresh hrun1) none exampleRng2 exampleBoard st2 g4 hrun2

/-- What a counting run does on any 9x9 board when the callback only reads the
board: it returns for every fuel above 81; whenever it returns, the board is the
input board, and the boolean is true exactly when the input had no empty
cell. -/
theorem solve_readonly_frame {σ : Type} (f : Grid → σ → σ) (board : Grid)
    (h9 : is9x9 board = true) (s : σ) :
    (∀ fuel, 81 < fuel →
      ∃ s2, solve (some f) fuel board s = some ((findEmpty board).isNone, board, s2)) ∧
    (∀ fuel x, solve (some f) fuel board s = some x →
      x.2.1 = board ∧ (x.1 = true ↔ ∀ r, r < 9 → ∀ c, c < 9 → board.get r c ≠ 0)) := by
  have hkey : ∀ fuel, 81 < fuel →
      ∃ s2, solve (some f) fuel board s = some ((findEmpty board).isNone, board, s2) := by
    intro fuel hfuel
    obtain ⟨res, b2, s2, hrun, _, hcb⟩ := solve_frame (some f) fuel board s h9
      (lt_of_le_of_lt (zeroCount_le _) hfuel)
    obtain ⟨e1, e2⟩ := hcb rfl
    subst e1 e2
    exact ⟨s2, hrun⟩
  refine ⟨hkey, fun fuel x hx => ?_⟩
  have hup := solve_mono (some f) (le_max_left fuel 82) _ _ _ hx
  obtain ⟨s2, hrun⟩ := hkey (max fuel 82) (lt_of_lt_of_le (by norm_num) (le_max_right fuel 82))
  rw [hrun] at hup
  cases hup
  refine ⟨rfl, ?_⟩
  simp only [Option.isNone_iff_eq_none, findEmpty_none_iff]
  exact ⟨fun h r hr c hc => h r c hr hc, fun h r c hr hc => h r hr c hc⟩

/-- C19, as the code has it: counting mode leaves its grid untouched when the
callback does.  For a callback that may write the board but hands it back as it
found it, such as the counting callback of `generateBoard`, and a 9x9 board:
the run is the run of `solve` with a callback that only reads the board; it
returns for every fuel above 81; whenever it returns, the board is the input
board, and the boolean is true exactly when the input had no empty cell. -/
theorem solve_counting_frame {σ : Type} (cb : Grid → σ → Grid × σ)
    (hcb : ∀ b s, (cb b s).1 = b) (board : Grid) (h9 : is9x9 board = true) (s : σ) :
    (∀ fuel, solveW cb fuel board s
      = solve (some (fun b s1 => (cb b s1).2)) fuel board s) ∧
    (∀ fuel, 81 < fuel →
      ∃ s2, solveW cb fuel board s = some ((findEmpty board).isNone, board, s2)) ∧
    (∀ fuel x, solveW cb fuel board s = some x →
      x.2.1 = board ∧ (x.1 = true ↔ ∀ r, r < 9 → ∀ c, c < 9 → board.get r c ≠ 0)) := by
  have heq := fun fuel => solveW_eq_solve cb hcb fuel board s
  obtain ⟨h1, h2⟩ := solve_readonly_frame (fun b s1 => (cb b s1).2) board h9 s
  refine ⟨heq, fun fuel hfuel => ?_, fun fuel x hx => ?_⟩
  · rw [heq fuel]
    exact h1 fuel hfuel
  · rw [heq fuel] at hx
    exact h2 fuel x hx

/-- Witness of C19 as the code has it, on `fourWayBoard` with the counting
callback, which hands the board back unchanged. -/
theorem solve_counting_frame_witness :
    is9x9 fourWayBoard = true ∧
      ∃ s2, solveW (fun b n => (b, countCallback b n)) 82 fourWayBoard 0
        = some ((findEmpty fourWayBoard).isNone, fourWayBoard, s2) :=
  ⟨by decide,
    (solve_counting_frame (fun b n => (b, countCallback b n)) (fun _ _ => rfl) fourWayBoard
      (by decide) 0).2.1 82 (by norm_num)⟩

/-- Counterexample to C19 as stated: on the full grid `lexFirst`, with a
callback that empties cell (0, 0), `solve` finds no empty cell, calls the
callback and returns true, and the board it leaves is not the input board. -/
theorem solve_callback_writes_board :
    solveW (fun b (s : Unit) => (b.set 0 0 0, s)) 82 lexFirst ()
        = some (true, lexFirst.set 0 0 0, ()) ∧
      lexFirst.set 0 0 0 ≠ lexFirst ∧ is9x9 lexFirst = true := by
  decide

/-- C20: `solve` never validates the cells that are already filled.  On a board
with no zero cell, conflicting or not, `solve` without a callback returns true,
and `solve` with a callback returns true after calling the callback exactly
once, on the board as it is; the counter of `generateBoard` ends at 1. -/
theorem solve_accepts_full_grid (board : Grid)
    (hfull : ∀ r, r < 9 → ∀ c, c < 9 → board.get r c ≠ 0) {σ : Type} (f : Grid → σ → σ)
    (s : σ) (fuel : Nat) :
    solve (none : Option (Grid → σ → σ)) (fuel + 1) board s = some (true, board, s) ∧
    solve (some f) (fuel + 1) board s = some (true, board, f board s) ∧
    solve (some countCallback) (fuel + 1) board 0 = some (true, board, 1) := by
  have hfe : findEmpty board = none :=
    (findEmpty_none_iff board).2 (fun r c hr hc => hfull r hr c hc)
  refine ⟨?_, ?_, ?_⟩
  · simp only [solve, hfe]
  · simp only [solve, hfe]
  · simp only [solve, hfe]
    rfl

/-- Witness of C20 on `clashBoard`, a full grid with two 1s in row 0, which
fails `checkWin` and is reported as a solution all the same. -/
theorem solve_accepts_full_grid_witness :
    checkWin clashBoard = false ∧
      solve (none : Option (Grid → Nat → Nat)) 1 clashBoard 0 = some (true, clashBoard, 0) ∧
      solve (some countCallback) 1 clashBoard 0 = some (true, clashBoard, 1) :=
  ⟨by decide,
    (solve_accepts_full_grid clashBoard (by decide) countCallback 0 0).1,
    (solve_accepts_full_grid clashBoard (by decide) countCallback 0 0).2.2⟩

end Sudoku
